import Mathlib

/-!
Verification development for the react-profiler-optimize repository.

The analysis core (scripts/analyze-profile.mjs and scripts/compare-profiles.mjs,
provided as source parts) is shallowly embedded here:

* JavaScript `Map` objects are modelled as insertion-ordered association lists
  (`JMap`), and `Set` objects as insertion-ordered duplicate-free lists.
* JavaScript numbers are modelled as exact rationals (`ℚ`) for durations and
  timestamps, and as integers (`ℤ`) for fiber ids, opcodes and raw operation
  records.  Reading past the end of an operations array yields `undefined`
  (`Number(undefined) = NaN`); that is modelled with `Option ℤ` reads.
* The embedded functions are executable so that concrete inputs can be
  evaluated inside proofs.
-/

namespace RPO

/-! ## JavaScript `Map` / `Set` modelling -/

/-- Insertion-ordered association list standing for a JavaScript `Map` with
integer keys. -/
abbrev JMap (α : Type) := List (Int × α)

/-- `Map.prototype.get`: first entry with the given key. -/
def jget {α : Type} (m : JMap α) (k : Int) : Option α :=
  match m with
  | [] => none
  | (k', v) :: t => if k' = k then some v else jget t k

/-- `Map.prototype.set`: replace in place when the key is present (keeping the
insertion position), append otherwise. -/
def jset {α : Type} (m : JMap α) (k : Int) (v : α) : JMap α :=
  match m with
  | [] => [(k, v)]
  | (k', v') :: t => if k' = k then (k, v) :: t else (k', v') :: jset t k v

/-- `Map.prototype.delete`. -/
def jdel {α : Type} (m : JMap α) (k : Int) : JMap α :=
  m.filter (fun p => p.1 ≠ k)

/-- `Map.prototype.has`. -/
def jhas {α : Type} (m : JMap α) (k : Int) : Bool :=
  (jget m k).isSome

/-- `Set.prototype.add` on an insertion-ordered set of integers. -/
def sinsert (s : List Int) (x : Int) : List Int :=
  if x ∈ s then s else s ++ [x]

/-- `addWarningOnce` (analyzer): add a non-empty warning string to the
de-duplicated warning `Set`. -/
def addWarningOnce (warningSet : List String) (warning : String) : List String :=
  if warning.length > 0 then
    if warning ∈ warningSet then warningSet else warningSet ++ [warning]
  else warningSet

/-! ## Numeric helpers: JS `Math.round`-based rounding, `median`, percent -/

/-- `Math.round`: round half toward positive infinity. -/
def jsRound (q : ℚ) : ℤ := ⌊q + 1 / 2⌋

/-- `round(num, digits)` from the analyzer: `Math.round(num * 10^d) / 10^d`.
(The `Number.isFinite` guard never fires over `ℚ`.) -/
def roundQ (q : ℚ) (digits : ℕ) : ℚ :=
  (jsRound (q * 10 ^ digits) : ℚ) / 10 ^ digits

/-- `median(values)`: sort ascending, take the middle element, averaging the two
middle elements for even length; `null` on an empty array. -/
def median (values : List ℚ) : Option ℚ :=
  match values with
  | [] => none
  | _ =>
    let sorted := values.insertionSort (· ≤ ·)
    let mid := sorted.length / 2
    if sorted.length % 2 = 0 then
      some ((sorted.getD (mid - 1) 0 + sorted.getD mid 0) / 2)
    else
      some (sorted.getD mid 0)

/-! ## Cadence detector (`summarizeCadence`) -/

structure CadenceSummary where
  samples : ℕ
  medianDeltaMs : Option ℚ
  regularity : Option ℚ
  likelyIntervalChurn : Bool
deriving Repr, DecidableEq

/-- Consecutive deltas of an (already sorted) timestamp list. -/
def consecutiveDeltas (l : List ℚ) : List ℚ :=
  (l.zip l.tail).map (fun p => p.2 - p.1)

/-- Deltas of the sorted timestamps, as computed inside `summarizeCadence`. -/
def cadenceDeltas (timestampsMs : List ℚ) : List ℚ :=
  consecutiveDeltas (timestampsMs.insertionSort (· ≤ ·))

/-- The raw (unrounded) median delta used by `summarizeCadence`, with the JS
`(medianDeltaMs || 0)` coalescing. -/
def cadenceMedian (timestampsMs : List ℚ) : ℚ :=
  (median (cadenceDeltas timestampsMs)).getD 0

/-- The raw regularity: fraction of deltas within `max(40, 0.2 × median)` of the
median. -/
def cadenceRegularity (timestampsMs : List ℚ) : ℚ :=
  let deltas := cadenceDeltas timestampsMs
  let med := cadenceMedian timestampsMs
  let tolerance := max 40 (med * (2 / 10))
  let regularMatches := (deltas.filter (fun d => |d - med| ≤ tolerance)).length
  if deltas.length ≠ 0 then (regularMatches : ℚ) / (deltas.length : ℚ) else 0

/-- `summarizeCadence(timestampsMs)` from the analyzer. -/
def summarizeCadence (timestampsMs : List ℚ) : CadenceSummary :=
  if timestampsMs.length < 4 then
    { samples := timestampsMs.length
      medianDeltaMs := none
      regularity := none
      likelyIntervalChurn := false }
  else
    let deltas := cadenceDeltas timestampsMs
    let medOpt := median deltas
    let med := medOpt.getD 0
    let regularity := cadenceRegularity timestampsMs
    { samples := timestampsMs.length
      medianDeltaMs := some (roundQ med 2)
      regularity := some (roundQ regularity 3)
      likelyIntervalChurn :=
        decide (med ≠ 0 ∧ 700 ≤ med ∧ med ≤ 1300 ∧ 1 / 2 ≤ regularity ∧
          3 ≤ deltas.length) }

/-! ## Render-cause classifier (`summarizeChangeDescription`) -/

/-- A change description record; `none` fields model absent / non-array JSON
fields, `some` an array of changed keys (hook slots are numbers in the export
but only emptiness is ever inspected). -/
structure ChangeDescription where
  isFirstMount : Bool
  props : Option (List String)
  state : Option (List String)
  context : Option (List String)
  hooks : Option (List String)
  didHooksChange : Bool
deriving Repr, DecidableEq

/-- `Array.isArray(x) && x.length > 0`. -/
def isNonemptyArr (o : Option (List String)) : Bool :=
  match o with
  | some l => l.length > 0
  | none => false

/-- `summarizeChangeDescription(changeDescription)` from the analyzer (the
non-object early return is outside this model, which takes a record). -/
def summarizeChangeDescription (cd : ChangeDescription) : String :=
  let reasons : List String := if cd.isFirstMount then ["mount"] else []
  let reasons := if isNonemptyArr cd.props then reasons ++ ["props"] else reasons
  let reasons := if isNonemptyArr cd.state then reasons ++ ["state"] else reasons
  let reasons := if isNonemptyArr cd.context then reasons ++ ["context"] else reasons
  let reasons := if isNonemptyArr cd.hooks then reasons ++ ["hooks"] else reasons
  let reasons :=
    if cd.didHooksChange ∧ "hooks" ∉ reasons then reasons ++ ["hooks"] else reasons
  if reasons.length = 0 then "unknown" else String.intercalate "+" reasons

/-- The closed form of the accumulated reason list: each category appears when
its condition holds, in the fixed order mount, props, state, context, hooks
(where hooks fires on a non-empty changed-hooks array or on the
`didHooksChange` flag). -/
def reasonCategories (cd : ChangeDescription) : List String :=
  (if cd.isFirstMount then ["mount"] else []) ++
  (if isNonemptyArr cd.props then ["props"] else []) ++
  (if isNonemptyArr cd.state then ["state"] else []) ++
  (if isNonemptyArr cd.context then ["context"] else []) ++
  (if isNonemptyArr cd.hooks ∨ cd.didHooksChange then ["hooks"] else [])

/-! ## Comparator (`compareReports` verdict, scripts/compare-profiles.mjs) -/

/-- The slice of an analysis report that the comparator's verdict reads. -/
structure ReportSummary where
  reactTimeMs : ℚ
  componentTrackEvents : ℚ
  likelyIntervalChurn : Bool
deriving Repr, DecidableEq

/-- `hasDurationSignal` in `compareReports`. -/
def hasDurationSignal (before after : ReportSummary) : Bool :=
  decide (0 < before.reactTimeMs ∨ 0 < after.reactTimeMs)

/-- The primary metric chosen for the before report. -/
def beforePrimary (before after : ReportSummary) : ℚ :=
  if hasDurationSignal before after then before.reactTimeMs
  else before.componentTrackEvents

/-- The primary metric chosen for the after report. -/
def afterPrimary (before after : ReportSummary) : ℚ :=
  if hasDurationSignal before after then after.reactTimeMs
  else after.componentTrackEvents

/-- The overall verdict computed by `compareReports`. -/
def compareVerdict (before after : ReportSummary) : String :=
  let cadenceBefore := before.likelyIntervalChurn
  let cadenceAfter := after.likelyIntervalChurn
  let primaryImproved := decide (afterPrimary before after < beforePrimary before after)
  let primaryRegressed := decide (beforePrimary before after < afterPrimary before after)
  let cadenceImproved := !cadenceBefore || (cadenceBefore && !cadenceAfter)
  let cadenceRegressed := !cadenceBefore && cadenceAfter
  if primaryImproved && cadenceImproved then "improved"
  else if primaryRegressed || cadenceRegressed then "regressed"
  else "mixed"

/-! ## Tree model and edit-log decoder (`applyOperationsToCommitTree`)

Raw operation records are arrays of integers (`List ℤ`).  Reading past the end
of the array yields `undefined`, i.e. `Number(...) = NaN`; reads are therefore
modelled as `Option ℤ` (`none` = NaN).  A NaN cursor (possible in the two
suspense branches that add an unguarded `numRects * 4`) makes the JS `while`
condition false; that is modelled by setting the cursor to the array length. -/

/-- One reconstructed render node. -/
structure RenderNode where
  id : Int
  children : List Int
  displayName : Option String
  hocDisplayNames : Option (List String)
  key : Option String
  parentID : Int
  treeBaseDuration : ℚ
  type : Option Int
  compiledWithForget : Bool
deriving Repr, DecidableEq

/-- The mutable commit tree: the node map plus the designated root id. -/
structure CommitTree where
  rootID : Int
  nodes : JMap RenderNode
deriving Repr, DecidableEq

def ELEMENT_TYPE_ROOT : Int := 11

def TREE_OPERATION_ADD : Int := 1
def TREE_OPERATION_REMOVE : Int := 2
def TREE_OPERATION_REORDER_CHILDREN : Int := 3
def TREE_OPERATION_UPDATE_TREE_BASE_DURATION : Int := 4
def TREE_OPERATION_UPDATE_ERRORS_OR_WARNINGS : Int := 5
def TREE_OPERATION_SET_SUBTREE_MODE : Int := 7
def SUSPENSE_TREE_OPERATION_ADD : Int := 8
def SUSPENSE_TREE_OPERATION_REMOVE : Int := 9
def SUSPENSE_TREE_OPERATION_REORDER_CHILDREN : Int := 10
def SUSPENSE_TREE_OPERATION_RESIZE : Int := 11
def SUSPENSE_TREE_OPERATION_SUSPENDERS : Int := 12
def TREE_OPERATION_APPLIED_ACTIVITY_SLICE_CHANGE : Int := 13

/-- The operation codes handled by a dedicated `switch` case. -/
def knownOpcodes : List Int := [1, 2, 3, 4, 5, 7, 8, 9, 10, 11, 12, 13]

/-- `Number(operations[i])`: `none` models the NaN produced by an out-of-bounds
read. -/
def getNum (ops : List Int) (i : ℕ) : Option Int := ops[i]?

/-- `stringTable[id]` followed by the `typeof === "string"` test (entry 0 of the
table is `null`; `?? null` on a table of strings-or-null coincides with it). -/
def lookupStringTable (table : List (Option String)) (idx : Option Int) : Option String :=
  match idx with
  | none => none
  | some n => if 0 ≤ n ∧ n.toNat < table.length then table.getD n.toNat none else none

/-- `decodeStringFromOperations(operations, startIndex, length)`.  Code points
are converted with `Char.ofNat`; JS `String.fromCodePoint` throws a
`RangeError` on invalid code points, an abnormal-termination edge none of the
claims touch. -/
def decodeStringFromOperations (ops : List Int) (startIndex length : ℕ) : String :=
  String.mk (((List.range length).filterMap (fun j => getNum ops (startIndex + j))).map
    (fun c => Char.ofNat c.toNat))

/-- The warning added for an unknown operation code. -/
def unknownOpcodeWarning (operation : Int) : String :=
  "Encountered unknown tree operation code " ++ toString operation ++
    "; commit tree reconstruction may be incomplete."

/-- The first statement block of the non-root `TREE_OPERATION_ADD` case:
detach the re-added node from its previous parent's children. -/
def detachFromOldParent (nodes : JMap RenderNode) (id : Int) : JMap RenderNode :=
  match jget nodes id with
  | some ex =>
    match jget nodes ex.parentID with
    | some oldParent =>
      jset nodes ex.parentID
        { oldParent with children := oldParent.children.filter (fun c => c ≠ id) }
    | none => nodes
  | none => nodes

/-- The second statement block of the non-root `TREE_OPERATION_ADD` case:
append the node to its new parent's children unless already present. -/
def attachToParent (nodes1 : JMap RenderNode) (id : Int) (parentID? : Option Int) :
    JMap RenderNode :=
  match parentID? with
  | some parentID =>
    match jget nodes1 parentID with
    | some parentNode =>
      if id ∈ parentNode.children then nodes1
      else jset nodes1 parentID { parentNode with children := parentNode.children ++ [id] }
    | none => nodes1
  | none => nodes1

/-- The `TREE_OPERATION_ADD` effect for a non-root node (given the already
decoded payload): detach from the old parent, attach under the new parent,
then store the rebuilt node record.  JS object aliasing matters here: the
`existing` object may be the same object as the old or new parent, whose
`children` were just replaced, so the re-used fields are read back from the
current map entry (present exactly when `existing` was). -/
def applyAddNonRoot (nodes : JMap RenderNode) (table : List (Option String)) (id : Int)
    (type? parentID? displayNameStringID? keyStringID? : Option Int) : JMap RenderNode :=
  let nodes2 := attachToParent (detachFromOldParent nodes id) id parentID?
  let exNow := jget nodes2 id
  jset nodes2 id
    { id := id
      children := (exNow.map (fun n => n.children)).getD []
      displayName := lookupStringTable table displayNameStringID?
      hocDisplayNames := (exNow.map (fun n => n.hocDisplayNames)).getD none
      key := lookupStringTable table keyStringID?
      parentID := parentID?.getD 0
      treeBaseDuration := (exNow.map (fun n => n.treeBaseDuration)).getD 0
      type := match type? with
              | some t => some t
              | none => (exNow.map (fun n => n.type)).getD none
      compiledWithForget := (exNow.map (fun n => n.compiledWithForget)).getD false }

/-- One iteration of the `TREE_OPERATION_REMOVE` id list: detach the node from
its parent's children and delete it (no cascade). -/
def removeOne (nodes : JMap RenderNode) (id : Int) : JMap RenderNode :=
  match jget nodes id with
  | none => nodes
  | some node =>
    let nodes1 :=
      match jget nodes node.parentID with
      | some parentNode =>
        jset nodes node.parentID
          { parentNode with children := parentNode.children.filter (fun c => c ≠ id) }
      | none => nodes
    jdel nodes1 id

/-- The `TREE_OPERATION_REMOVE` loop: reads `removeLength` ids starting at
cursor `i`, stopping at the end of the record. -/
def removeLoop (ops : List Int) (nodes : JMap RenderNode) (i : ℕ) :
    ℕ → JMap RenderNode × ℕ
  | 0 => (nodes, i)
  | count + 1 =>
    if i < ops.length then
      removeLoop ops (removeOne nodes (ops.getD i 0)) (i + 1) count
    else (nodes, i)

/-- The `TREE_OPERATION_REORDER_CHILDREN` id collection loop. -/
def collectIds (ops : List Int) (i : ℕ) : ℕ → List Int × ℕ
  | 0 => ([], i)
  | count + 1 =>
    if i < ops.length then
      let (rest, iEnd) := collectIds ops (i + 1) count
      (ops.getD i 0 :: rest, iEnd)
    else ([], i)

/-- The `SUSPENSE_TREE_OPERATION_SUSPENDERS` skip loop: each entry skips four
fixed units plus a variable environment-name list. -/
def suspendersLoop (ops : List Int) (i : ℕ) : ℕ → ℕ
  | 0 => i
  | count + 1 =>
    if i < ops.length then
      let skip :=
        match getNum ops (i + 4) with
        | some e => if 0 < e then e.toNat else 0
        | none => 0
      suspendersLoop ops (i + 5 + skip) count
    else i

/-- Result of one iteration of the main decode loop. -/
structure DStep where
  tree : CommitTree
  warnings : List String
  next : ℕ
deriving Repr

/-- One iteration of the main `switch` of `applyOperationsToCommitTree`,
dispatching on `Number(operations[i])`. -/
def decodeStep (ops : List Int) (table : List (Option String)) (tree : CommitTree)
    (warnings : List String) (i : ℕ) : DStep :=
  let operation := ops.getD i 0
  if operation = TREE_OPERATION_ADD then
    match getNum ops (i + 1) with
    | none =>
      { tree := tree
        warnings := addWarningOnce warnings "Encountered TREE_OPERATION_ADD with invalid fiber id."
        next := i + 3 }
    | some id =>
      if getNum ops (i + 2) = some ELEMENT_TYPE_ROOT then
        { tree :=
            { rootID := id
              nodes := jset tree.nodes id
                { id := id, children := [], displayName := none, hocDisplayNames := none
                  key := none, parentID := 0, treeBaseDuration := 0
                  type := some ELEMENT_TYPE_ROOT, compiledWithForget := false } }
          warnings := warnings
          next := i + 7 }
      else
        { tree :=
            { tree with
              nodes :=
                applyAddNonRoot tree.nodes table id (getNum ops (i + 2))
                  (getNum ops (i + 3)) (getNum ops (i + 5)) (getNum ops (i + 6)) }
          warnings := warnings
          next := i + 8 }
  else if operation = TREE_OPERATION_REMOVE then
    match getNum ops (i + 1) with
    | some removeLength =>
      if removeLength < 0 then
        { tree := tree
          warnings := addWarningOnce warnings
            "Encountered TREE_OPERATION_REMOVE with invalid remove length."
          next := i + 2 }
      else
        { tree := { tree with nodes := (removeLoop ops tree.nodes (i + 2) removeLength.toNat).1 }
          warnings := warnings
          next := (removeLoop ops tree.nodes (i + 2) removeLength.toNat).2 }
    | none =>
      { tree := tree
        warnings := addWarningOnce warnings
          "Encountered TREE_OPERATION_REMOVE with invalid remove length."
        next := i + 2 }
  else if operation = TREE_OPERATION_REORDER_CHILDREN then
    match getNum ops (i + 2) with
    | some numChildren =>
      if numChildren < 0 then
        { tree := tree
          warnings := addWarningOnce warnings
            "Encountered TREE_OPERATION_REORDER_CHILDREN with invalid child count."
          next := i + 3 }
      else
        let children := (collectIds ops (i + 3) numChildren.toNat).1
        let nodes' :=
          match getNum ops (i + 1) with
          | some id =>
            match jget tree.nodes id with
            | some node =>
              let m1 := jset tree.nodes id { node with children := children }
              children.foldl (fun acc childID =>
                match jget acc childID with
                | some childNode => jset acc childID { childNode with parentID := id }
                | none => acc) m1
            | none => tree.nodes
          | none => tree.nodes
        { tree := { tree with nodes := nodes' }
          warnings := warnings
          next := (collectIds ops (i + 3) numChildren.toNat).2 }
    | none =>
      { tree := tree
        warnings := addWarningOnce warnings
          "Encountered TREE_OPERATION_REORDER_CHILDREN with invalid child count."
        next := i + 3 }
  else if operation = TREE_OPERATION_SET_SUBTREE_MODE then
    { tree := tree, warnings := warnings, next := i + 3 }
  else if operation = TREE_OPERATION_UPDATE_TREE_BASE_DURATION then
    let nodes' :=
      match getNum ops (i + 1), getNum ops (i + 2) with
      | some id, some durationUs =>
        match jget tree.nodes id with
        | some node => jset tree.nodes id { node with treeBaseDuration := (durationUs : ℚ) / 1000 }
        | none => tree.nodes
      | _, _ => tree.nodes
    { tree := { tree with nodes := nodes' }, warnings := warnings, next := i + 3 }
  else if operation = TREE_OPERATION_UPDATE_ERRORS_OR_WARNINGS then
    { tree := tree, warnings := warnings, next := i + 4 }
  else if operation = SUSPENSE_TREE_OPERATION_ADD then
    match getNum ops (i + 5) with
    | some numRects =>
      { tree := tree, warnings := warnings
        next := i + 6 + (if numRects = -1 then 0 else (max 0 numRects).toNat * 4) }
    | none =>
      -- `i += 6 + NaN` makes the cursor NaN and the while condition false.
      { tree := tree, warnings := warnings, next := ops.length }
  else if operation = SUSPENSE_TREE_OPERATION_REMOVE then
    let skip :=
      match getNum ops (i + 1) with
      | some removeLength => if 0 < removeLength then removeLength.toNat else 0
      | none => 0
    { tree := tree, warnings := warnings, next := i + 2 + skip }
  else if operation = SUSPENSE_TREE_OPERATION_REORDER_CHILDREN then
    let skip :=
      match getNum ops (i + 2) with
      | some numChildren => if 0 < numChildren then numChildren.toNat else 0
      | none => 0
    { tree := tree, warnings := warnings, next := i + 3 + skip }
  else if operation = SUSPENSE_TREE_OPERATION_RESIZE then
    match getNum ops (i + 2) with
    | some numRects =>
      { tree := tree, warnings := warnings
        next := i + 3 + (if numRects = -1 then 0 else (max 0 numRects).toNat * 4) }
    | none =>
      { tree := tree, warnings := warnings, next := ops.length }
  else if operation = SUSPENSE_TREE_OPERATION_SUSPENDERS then
    let safeChangeLength :=
      match getNum ops (i + 1) with
      | some changeLength => if 0 < changeLength then changeLength.toNat else 0
      | none => 0
    { tree := tree, warnings := warnings, next := suspendersLoop ops (i + 2) safeChangeLength }
  else if operation = TREE_OPERATION_APPLIED_ACTIVITY_SLICE_CHANGE then
    { tree := tree, warnings := warnings, next := i + 2 }
  else
    { tree := tree
      warnings := addWarningOnce warnings (unknownOpcodeWarning operation)
      next := i + 1 }

/-- The main decode loop: iterates `decodeStep` while the cursor is inside the
record.  The fuel only bounds the iteration count for the termination checker;
since every `decodeStep` moves the cursor strictly forward (proved below), the
`ops.length + 1` fuel supplied by `applyOperationsToCommitTree` is never
exhausted. -/
def decodeLoop (ops : List Int) (table : List (Option String)) :
    ℕ → CommitTree → List String → ℕ → CommitTree × List String
  | 0, tree, warnings, _ => (tree, warnings)
  | fuel + 1, tree, warnings, i =>
    if i < ops.length then
      let s := decodeStep ops table tree warnings i
      decodeLoop ops table fuel s.tree s.warnings s.next
    else (tree, warnings)

/-- The string-table decode loop preceding the main loop.  Returns `none` on a
malformed payload (the whole record is then abandoned with a warning). -/
def stringTableLoop (ops : List Int) (tableEnd : ℕ) (table : List (Option String))
    (warnings : List String) (i : ℕ) :
    Option (List (Option String) × ℕ) × List String :=
  if _h : i < tableEnd then
    let nextLength := ops.getD i 0
    if nextLength < 0 ∨ (ops.length : Int) < (i : Int) + 1 + nextLength then
      (none, addWarningOnce warnings
        "Malformed operation string payload encountered; commit tree may be partially reconstructed.")
    else
      stringTableLoop ops tableEnd
        (table ++ [some (decodeStringFromOperations ops (i + 1) nextLength.toNat)])
        warnings (i + 1 + nextLength.toNat)
  else (some (table, i), warnings)
termination_by tableEnd - i

/-- `applyOperationsToCommitTree(commitTree, operations, warningSet)`: decode
the string table, then replay the operation stream against the tree. -/
def applyOperationsToCommitTree (tree : CommitTree) (ops : List Int)
    (warnings : List String) : CommitTree × List String :=
  if ops.length < 3 then (tree, warnings)
  else
    let stringTableSize := ops.getD 2 0
    if stringTableSize < 0 then
      (tree, addWarningOnce warnings
        "Invalid operation string table encountered; skipping commit tree mutation.")
    else
      let tableEnd := min ops.length (3 + stringTableSize.toNat)
      match stringTableLoop ops tableEnd [none] warnings 3 with
      | (none, warnings') => (tree, warnings')
      | (some (table, i), warnings') => decodeLoop ops table (ops.length + 1) tree warnings' i

/-! ## Commit analyzer: `buildCommitFlamegraph`

The name-enrichment subsystems (hook-name resolution, runtime inspect-element
metadata, `whyRendered` parsing) are orthogonal to every flamegraph claim and
are not part of this embedding; the produced node records carry the structural
and timing fields. -/

/-- A flamegraph node as produced per included fiber. -/
structure FGNode where
  fiberId : Int
  parentFiberId : Int
  childrenFiberIds : List Int
  depth : ℕ
  name : String
  usedFallbackName : Bool
  key : Option String
  type : Option Int
  hocDisplayNames : Option (List String)
  compiledWithForget : Bool
  selfMs : ℚ
  subtreeMs : ℚ
  computedSubtreeMs : ℚ
  treeBaseDurationMs : ℚ
deriving Repr, DecidableEq

/-- `getSnapshotDisplayName(node)`: trimmed `displayName`, else the first HOC
display name. -/
def getSnapshotDisplayName (node : RenderNode) : Option String :=
  match node.displayName with
  | some s => if s.trim.length > 0 then some s.trim else
      (match node.hocDisplayNames with
       | some (h :: _) => some h
       | _ => none)
  | none =>
    match node.hocDisplayNames with
    | some (h :: _) => some h
    | _ => none

/-- `resolveFiberName({fiberId, node, fallbackFiberNameMap, rootName})`:
`(name, usedFallback)`. -/
def resolveFiberName (fiberId : Int) (node : Option RenderNode)
    (fallbackFiberNameMap : JMap String) (rootName : String) : String × Bool :=
  match node with
  | some n =>
    match getSnapshotDisplayName n with
    | some displayName => (displayName, false)
    | none => resolveFallbackName fiberId fallbackFiberNameMap rootName
  | none => resolveFallbackName fiberId fallbackFiberNameMap rootName
where
  resolveFallbackName (fiberId : Int) (fallbackFiberNameMap : JMap String)
      (rootName : String) : String × Bool :=
    match jget fallbackFiberNameMap fiberId with
    | some fallbackName =>
      if fallbackName.trim.length > 0 then (fallbackName.trim, false)
      else (rootName ++ "::Fiber#" ++ toString fiberId, true)
    | none => (rootName ++ "::Fiber#" ++ toString fiberId, true)

/-- The ancestor-chain walk of `buildCommitFlamegraph`: follow `parentID` links
from a rendered fiber, guarded by a `seen` set, adding each ancestor to the
included set.  The fuel `nodes.length + 1` dominates the walk length, since
every step requires a distinct, present node. -/
def ancestorWalk (nodes : JMap RenderNode) (fuel : ℕ) (cursor : Int)
    (seen included : List Int) : List Int :=
  match fuel with
  | 0 => included
  | fuel + 1 =>
    match jget nodes cursor with
    | none => included
    | some node =>
      let parentID := node.parentID
      if parentID = 0 ∨ parentID ∈ seen then included
      else ancestorWalk nodes fuel parentID (sinsert seen parentID) (sinsert included parentID)

/-- The root fiber id after the fallback to the first map key. -/
def fgRootFiberId (tree : CommitTree) : Int :=
  match tree.nodes with
  | [] => tree.rootID
  | (k, _) :: _ => if jhas tree.nodes tree.rootID then tree.rootID else k

/-- `includedFiberIDs`: the root, every rendered fiber, and each rendered
fiber's ancestor chain, in JS `Set` insertion order. -/
def fgIncluded (tree : CommitTree) (renderedFibers : List Int) : List Int :=
  renderedFibers.foldl
    (fun included fiberId =>
      ancestorWalk tree.nodes (tree.nodes.length + 1) fiberId [fiberId]
        (sinsert included fiberId))
    (sinsert [] (fgRootFiberId tree))

/-- First pass over the included set: `parentByFiberID` and the initial
`childrenByFiberID` (attachment by parent link, re-rooting orphans). -/
def fgAssignParents (tree : CommitTree) (rootFiberId : Int) (included : List Int) :
    JMap Int × JMap (List Int) :=
  included.foldl
    (fun (maps : JMap Int × JMap (List Int)) fiberId =>
      let parentFiberId :=
        if fiberId = rootFiberId then 0
        else
          match jget tree.nodes fiberId with
          | some node => if node.parentID ∈ included then node.parentID else rootFiberId
          | none => rootFiberId
      let pb := jset maps.1 fiberId parentFiberId
      let cb :=
        if parentFiberId ≠ 0 then
          let cur := (jget maps.2 parentFiberId).getD []
          if fiberId ∈ cur then maps.2 else jset maps.2 parentFiberId (cur ++ [fiberId])
        else maps.2
      (pb, cb))
    ([], included.map (fun fiberId => (fiberId, ([] : List Int))))

/-- Second pass: per included fiber present in the tree, order the known
children by the tree's child list (restricted to the included set) followed by
the ascending-sorted extras. -/
def fgMergeChildren (tree : CommitTree) (included : List Int)
    (childrenBy : JMap (List Int)) : JMap (List Int) :=
  included.foldl
    (fun cb fiberId =>
      match jget tree.nodes fiberId with
      | none => cb
      | some node =>
        let knownChildren := (jget cb fiberId).getD []
        let orderedFromTree := node.children.filter (fun c => c ∈ included)
        let extras :=
          (knownChildren.filter (fun c => c ∉ orderedFromTree)).insertionSort (· ≤ ·)
        jset cb fiberId (orderedFromTree ++ extras))
    childrenBy

/-- The breadth-first depth assignment from the root over the included
children lists.  Fuel dominates the pop count (each pushed id is depth-set
exactly once). -/
def fgBfs (childrenBy : JMap (List Int)) (fuel : ℕ) (queue : List Int)
    (depthBy : JMap ℕ) : JMap ℕ :=
  match fuel, queue with
  | 0, _ => depthBy
  | _, [] => depthBy
  | fuel + 1, parentID :: rest =>
    let parentDepth := (jget depthBy parentID).getD 0
    let step :=
      ((jget childrenBy parentID).getD []).foldl
        (fun (acc : JMap ℕ × List Int) childID =>
          if jhas acc.1 childID then acc
          else (jset acc.1 childID (parentDepth + 1), acc.2 ++ [childID]))
        (depthBy, rest)
    fgBfs childrenBy fuel step.2 step.1

/-- The complete per-fiber depth map (BFS result plus the orphan default). -/
def fgDepths (childrenBy : JMap (List Int)) (rootFiberId : Int) (included : List Int) :
    JMap ℕ :=
  let bfs := fgBfs childrenBy (included.length + 2) [rootFiberId] [(rootFiberId, 0)]
  included.foldl
    (fun depthBy fiberId =>
      if jhas depthBy fiberId then depthBy
      else jset depthBy fiberId (if fiberId ≠ rootFiberId then 1 else 0))
    bfs

mutual

/-- `computeSubtreeMs(fiberId, lineage)`: memoised depth-first accumulation of
self times over the included children lists, guarded by the recursion lineage
(a revisited fiber contributes only its own self time).  The JS recursion is
bounded by the growth of the lineage inside the included set; the fuel
(`included.length + 1` at the call site) dominates that depth, so the fuel-out
branch is unreachable there. -/
def computeSubtreeOne (childrenBy : JMap (List Int)) (selfOf : Int → ℚ) :
    ℕ → Int → List Int → JMap ℚ → ℚ × JMap ℚ
  | 0, fiberId, _, memo => ((jget memo fiberId).getD (selfOf fiberId), memo)
  | fuel + 1, fiberId, lineage, memo =>
    match jget memo fiberId with
    | some v => (v, memo)
    | none =>
      if fiberId ∈ lineage then (selfOf fiberId, memo)
      else
        let kids := computeSubtreeKids childrenBy selfOf fuel
          ((jget childrenBy fiberId).getD []) (fiberId :: lineage) memo
        let total := selfOf fiberId + kids.1
        (total, jset kids.2 fiberId total)
termination_by fuel => (fuel, 0)

/-- Accumulates `computeSubtreeOne` over a child list, threading the memo. -/
def computeSubtreeKids (childrenBy : JMap (List Int)) (selfOf : Int → ℚ) :
    ℕ → List Int → List Int → JMap ℚ → ℚ × JMap ℚ
  | _, [], _, memo => (0, memo)
  | fuel, childID :: rest, lineage, memo =>
    let one := computeSubtreeOne childrenBy selfOf fuel childID lineage memo
    let more := computeSubtreeKids childrenBy selfOf fuel rest lineage one.2
    (one.1 + more.1, more.2)
termination_by fuel l => (fuel, l.length + 1)

end

/-- The memo table after the `for (const fiberId of includedFiberIDs)
computeSubtreeMs(fiberId)` loop. -/
def fgMemo (childrenBy : JMap (List Int)) (selfOf : Int → ℚ) (included : List Int) :
    JMap ℚ :=
  included.foldl
    (fun memo fiberId =>
      (computeSubtreeOne childrenBy selfOf (included.length + 1) fiberId [] memo).2)
    []

/-- The merged `childrenByFiberID` map of a commit flamegraph. -/
def fgChildrenBy (tree : CommitTree) (renderedFibers : List Int) : JMap (List Int) :=
  fgMergeChildren tree (fgIncluded tree renderedFibers)
    (fgAssignParents tree (fgRootFiberId tree) (fgIncluded tree renderedFibers)).2

/-- The `parentByFiberID` map of a commit flamegraph. -/
def fgParentBy (tree : CommitTree) (renderedFibers : List Int) : JMap Int :=
  (fgAssignParents tree (fgRootFiberId tree) (fgIncluded tree renderedFibers)).1

/-- The `depthByFiberID` map of a commit flamegraph. -/
def fgDepthBy (tree : CommitTree) (renderedFibers : List Int) : JMap ℕ :=
  fgDepths (fgChildrenBy tree renderedFibers) (fgRootFiberId tree)
    (fgIncluded tree renderedFibers)

/-- `Number(selfByFiber.get(fiberId) ?? 0)`. -/
def fgSelfOf (selfByFiber : JMap ℚ) : Int → ℚ :=
  fun fiberId => (jget selfByFiber fiberId).getD 0

/-- The `computedSubtreeMsByFiberID` memo of one commit flamegraph. -/
def fgMemoOf (tree : CommitTree) (renderedFibers : List Int) (selfByFiber : JMap ℚ) :
    JMap ℚ :=
  fgMemo (fgChildrenBy tree renderedFibers) (fgSelfOf selfByFiber)
    (fgIncluded tree renderedFibers)

/-- Ordering of the produced node list: depth ascending, fiber id as
tie-breaker. -/
def fgNodeOrder (a b : FGNode) : Prop :=
  a.depth < b.depth ∨ (a.depth = b.depth ∧ a.fiberId ≤ b.fiberId)

instance : DecidableRel fgNodeOrder := fun a b => by
  unfold fgNodeOrder; infer_instance

/-- The flamegraph output (`rootFiberId` and the per-included-fiber nodes). -/
structure Flamegraph where
  rootFiberId : Int
  nodes : List FGNode
deriving Repr, DecidableEq

/-- The record built for one included fiber of a commit flamegraph. -/
def fgBuildNode (tree : CommitTree) (rootName : String)
    (fallbackFiberNameMap : JMap String) (renderedFibers : List Int)
    (actualByFiber selfByFiber : JMap ℚ) (fiberId : Int) : FGNode :=
  let node := jget tree.nodes fiberId
  let nameMeta := resolveFiberName fiberId node fallbackFiberNameMap rootName
  { fiberId := fiberId
    parentFiberId := (jget (fgParentBy tree renderedFibers) fiberId).getD 0
    childrenFiberIds := (jget (fgChildrenBy tree renderedFibers) fiberId).getD []
    depth := (jget (fgDepthBy tree renderedFibers) fiberId).getD 0
    name := nameMeta.1
    usedFallbackName := nameMeta.2
    key := node.bind (fun n => n.key)
    type := node.bind (fun n => n.type)
    hocDisplayNames := node.bind (fun n => n.hocDisplayNames)
    compiledWithForget := (node.map (fun n => n.compiledWithForget)).getD false
    selfMs := roundQ (fgSelfOf selfByFiber fiberId) 2
    subtreeMs := roundQ ((jget actualByFiber fiberId).getD 0) 2
    computedSubtreeMs :=
      roundQ ((jget (fgMemoOf tree renderedFibers selfByFiber) fiberId).getD 0) 2
    treeBaseDurationMs := roundQ ((node.map (fun n => n.treeBaseDuration)).getD 0) 2 }

/-- `buildCommitFlamegraph` (structural and timing portion): included set,
parent/child maps, depths, memoised subtree times, and one record per included
fiber, sorted by depth then fiber id. -/
def buildCommitFlamegraph (tree : CommitTree) (rootName : String)
    (fallbackFiberNameMap : JMap String) (renderedFibers : List Int)
    (actualByFiber selfByFiber : JMap ℚ) : Flamegraph :=
  { rootFiberId := fgRootFiberId tree
    nodes := ((fgIncluded tree renderedFibers).map
        (fgBuildNode tree rootName fallbackFiberNameMap renderedFibers actualByFiber
          selfByFiber)).insertionSort fgNodeOrder }

/-! ## Per-pass duration resolution (`analyzeReactDevtoolsExport`) -/

/-- A top-level entry of a raw sparse-map array from the export: either a bare
number or a `[key, value]` pair (the two encodings `normalizePairEntries`
recognises). -/
inductive NumOrPair where
  | num (q : ℚ)
  | pair (k : ℚ) (v : ℚ)
deriving Repr, DecidableEq

/-- `normalizePairEntries(value)`: nested `[key, value]` entries are taken
as-is; two adjacent bare numbers form a pair; a bare number not followed by a
bare number is skipped (`Number` of a two-element array is NaN). -/
def normalizePairEntries : List NumOrPair → List (ℚ × ℚ)
  | [] => []
  | .pair k v :: rest => (k, v) :: normalizePairEntries rest
  | .num a :: .num b :: rest => (a, b) :: normalizePairEntries rest
  | .num _ :: .pair k v :: rest => (k, v) :: normalizePairEntries rest
  | .num _ :: [] => []

/-- `sumNumericArray(values)`: sum of the numeric top-level entries only
(nested pair arrays are not numbers and contribute nothing). -/
def sumNumericArray (values : List NumOrPair) : ℚ :=
  values.foldl
    (fun total v =>
      match v with
      | .num q => total + q
      | .pair _ _ => total) 0

/-- The self-duration total: values of the normalised pair entries. -/
def fiberSelfTotal (fiberSelfDurations : List NumOrPair) : ℚ :=
  (normalizePairEntries fiberSelfDurations).foldl (fun sum p => sum + p.2) 0

/-- The value-wise sum of a sparse map array under the pair reading — the
"sum of the per-fiber subtree/actual-durations" in the words of the
specification, used to compare against what the code computes. -/
def specActualDurationsSum (fiberActualDurations : List NumOrPair) : ℚ :=
  (normalizePairEntries fiberActualDurations).foldl (fun sum p => sum + p.2) 0

/-- The duration-relevant slice of one `commitData` entry. -/
structure CommitRecord where
  duration : Option ℚ
  actualDuration : Option ℚ
  commitDuration : Option ℚ
  fiberSelfDurations : List NumOrPair
  fiberActualDurations : List NumOrPair
deriving Repr, DecidableEq

/-- `pickNumber(commit, ["duration", "actualDuration", "commitDuration"])`. -/
def pickCommitDuration (c : CommitRecord) : Option ℚ :=
  c.duration <|> c.actualDuration <|> c.commitDuration

/-- The `durationMs` fallback chain of `analyzeReactDevtoolsExport`. -/
def resolveCommitDurationMs (c : CommitRecord) : Option ℚ :=
  match pickCommitDuration c with
  | some d => some d
  | none =>
    let selfTotal := fiberSelfTotal c.fiberSelfDurations
    if 0 < selfTotal then some selfTotal
    else
      let fiberActual := sumNumericArray c.fiberActualDurations
      if 0 < fiberActual then some fiberActual else none

/-- The `durationMs` written on the commit record of the report
(`round(Number.isFinite(durationMs) ? durationMs : 0)`). -/
def reportedCommitDurationMs (c : CommitRecord) : ℚ :=
  roundQ ((resolveCommitDurationMs c).getD 0) 2

/-! ## Hotspot list construction (`analyzeReactDevtoolsExport` tail) -/

/-- One accumulated per-display-name aggregate. -/
structure Aggregate where
  name : String
  count : ℕ
  totalMs : ℚ
  totalSelfMs : ℚ
  totalSubtreeMs : ℚ
  reasonCounts : List (String × ℕ)
deriving Repr, DecidableEq

/-- One reported hotspot entry. -/
structure Hotspot where
  name : String
  count : ℕ
  totalMs : ℚ
  avgMs : ℚ
  selfMs : ℚ
  avgSelfMs : ℚ
  subtreeMs : ℚ
  avgSubtreeMs : ℚ
  topReasons : List (String × ℕ)
deriving Repr, DecidableEq

/-- Ordering of reason counts: count descending. -/
def reasonCountOrder (a b : String × ℕ) : Prop := b.2 ≤ a.2

instance : DecidableRel reasonCountOrder := fun a b => by
  unfold reasonCountOrder; infer_instance

/-- The per-aggregate hotspot record built by the `.map` step. -/
def toHotspot (h : Aggregate) : Hotspot :=
  { name := h.name
    count := h.count
    totalMs := roundQ h.totalMs 2
    avgMs := roundQ (h.totalMs / (max 1 h.count : ℕ)) 2
    selfMs := roundQ h.totalSelfMs 2
    avgSelfMs := roundQ (h.totalSelfMs / (max 1 h.count : ℕ)) 2
    subtreeMs := roundQ h.totalSubtreeMs 2
    avgSubtreeMs := roundQ (h.totalSubtreeMs / (max 1 h.count : ℕ)) 2
    topReasons := (h.reasonCounts.insertionSort reasonCountOrder).take 3 }

/-- The hotspot sort order: `totalMs` descending, `count` descending as the
tie-breaker (the JS comparator `b.totalMs - a.totalMs || b.count - a.count`
as a total preorder). -/
def hotspotOrder (a b : Hotspot) : Prop :=
  b.totalMs < a.totalMs ∨ (b.totalMs = a.totalMs ∧ b.count ≤ a.count)

instance : DecidableRel hotspotOrder := fun a b => by
  unfold hotspotOrder; infer_instance

instance : IsTotal Hotspot hotspotOrder where
  total a b := by
    unfold hotspotOrder
    rcases lt_trichotomy a.totalMs b.totalMs with h | h | h
    · exact Or.inr (Or.inl h)
    · rcases Nat.le_total b.count a.count with hc | hc
      · exact Or.inl (Or.inr ⟨h.symm, hc⟩)
      · exact Or.inr (Or.inr ⟨h, hc⟩)
    · exact Or.inl (Or.inl h)

instance : IsTrans Hotspot hotspotOrder where
  trans a b c hab hbc := by
    unfold hotspotOrder at *
    rcases hab with h1 | ⟨h1, h1c⟩ <;> rcases hbc with h2 | ⟨h2, h2c⟩
    · exact Or.inl (h2.trans h1)
    · exact Or.inl (h2 ▸ h1)
    · exact Or.inl (h1 ▸ h2)
    · exact Or.inr ⟨h2.trans h1, Nat.le_trans h2c h1c⟩

/-- The report's `hotspots` array: aggregates mapped to hotspot records,
sorted by `totalMs` descending with `count` tie-breaker, truncated to 25. -/
def buildHotspots (aggregates : List Aggregate) : List Hotspot :=
  ((aggregates.map toHotspot).insertionSort hotspotOrder).take 25

/-! ## Concrete fixtures used in the claim analyses -/

/-- Root node of the small flamegraph fixture. -/
def rnRoot : RenderNode :=
  { id := 1, children := [2], displayName := some "Root", hocDisplayNames := none, key := none,
    parentID := 0, treeBaseDuration := 0, type := some ELEMENT_TYPE_ROOT,
    compiledWithForget := false }

/-- Fixture node `A` (fiber 2), child of the root, parent of `B`. -/
def rnA : RenderNode :=
  { id := 2, children := [3], displayName := some "A", hocDisplayNames := none, key := none,
    parentID := 1, treeBaseDuration := 0, type := some 5, compiledWithForget := false }

/-- Fixture node `B` (fiber 3), child of `A`. -/
def rnB : RenderNode :=
  { id := 3, children := [], displayName := some "B", hocDisplayNames := none, key := none,
    parentID := 2, treeBaseDuration := 0, type := some 5, compiledWithForget := false }

/-- A three-node commit tree: root 1 → 2 → 3. -/
def fixTree : CommitTree := { rootID := 1, nodes := [(1, rnRoot), (2, rnA), (3, rnB)] }

/-- Self durations of the fixture pass: fiber 2 has 5 ms, fiber 3 has 3 ms. -/
def fixSelf : JMap ℚ := [(2, 5), (3, 3)]

/-- The fixture flamegraph: fibers 2 and 3 rendered, with self durations only
and no explicit actual-duration entries. -/
def fgFix : Flamegraph := buildCommitFlamegraph fixTree "root" [] [2, 3] [] fixSelf

/-- Comparator fixture: baseline report with no periodic churn. -/
def rsBefore : ReportSummary :=
  { reactTimeMs := 100, componentTrackEvents := 0, likelyIntervalChurn := false }

/-- Comparator fixture: a faster after-report in which churn newly appeared. -/
def rsAfter : ReportSummary :=
  { reactTimeMs := 40, componentTrackEvents := 0, likelyIntervalChurn := true }

/-- Comparator fixture: a report compared with itself. -/
def rsEqual : ReportSummary :=
  { reactTimeMs := 120, componentTrackEvents := 3, likelyIntervalChurn := false }

/-- Ten timestamps spaced exactly 1000 ms apart. -/
def cadenceDemo : List ℚ :=
  [0, 1000, 2000, 3000, 4000, 5000, 6000, 7000, 8000, 9000]

/-- A first-mount change record that also carries a changed-props set. -/
def cdMountProps : ChangeDescription :=
  { isFirstMount := true, props := some ["value"], state := none, context := none,
    hooks := none, didHooksChange := false }

/-- Tree-model fixture: parent 10 whose children already contain 7. -/
def rnParent10 : RenderNode :=
  { id := 10, children := [7], displayName := none, hocDisplayNames := none, key := none,
    parentID := 0, treeBaseDuration := 0, type := some ELEMENT_TYPE_ROOT,
    compiledWithForget := false }

/-- Tree-model fixture: node 7, a child of 10. -/
def rnChild7 : RenderNode :=
  { id := 7, children := [], displayName := none, hocDisplayNames := none, key := none,
    parentID := 10, treeBaseDuration := 0, type := some 5, compiledWithForget := false }

/-- Node map in which 7 is already a child of 10. -/
def c6Nodes : JMap RenderNode := [(10, rnParent10), (7, rnChild7)]

/-- Node map with parent 10 only, 7 not yet among its children. -/
def c6NodesW : JMap RenderNode := [(10, { rnParent10 with children := [] })]

/-- A commit record with no duration fields, no self durations, and one
`[fiberId, actualDuration]` pair `[1, 5]`. -/
def c7Commit : CommitRecord :=
  { duration := none, actualDuration := none, commitDuration := none,
    fiberSelfDurations := [], fiberActualDurations := [.pair 1 5] }

/-- A commit record exercising the self-duration fallback (flat `[2, 4]`
encodes fiber 2 with 4 ms of self time). -/
def c7CommitW : CommitRecord :=
  { duration := none, actualDuration := none, commitDuration := none,
    fiberSelfDurations := [.num 2, .num 4], fiberActualDurations := [] }

/-- A five-value record whose payload (after the empty string table) is two
unknown opcodes `99`. -/
def opsUnknown : List Int := [1, 1, 0, 99, 99]

/-! ## Helper lemmas -/

theorem jget_jset_self {α : Type} (m : JMap α) (k : Int) (v : α) :
    jget (jset m k v) k = some v := by
  induction m with
  | nil => simp [jget, jset]
  | cons p t ih =>
    obtain ⟨k', v'⟩ := p
    by_cases h : k' = k <;> simp [jget, jset, h, ih]

theorem jget_jset_ne {α : Type} (m : JMap α) (k k' : Int) (v : α) (h : k ≠ k') :
    jget (jset m k v) k' = jget m k' := by
  induction m with
  | nil => simp [jget, jset, h]
  | cons p t ih =>
    obtain ⟨k₀, v₀⟩ := p
    by_cases h0 : k₀ = k
    · subst h0
      simp [jget, jset, h]
    · simp only [jset, if_neg h0, jget]
      by_cases h1 : k₀ = k' <;> simp [h1, ih]

theorem mem_jset {α : Type} (m : JMap α) (k : Int) (v : α) :
    ∀ p ∈ jset m k v, p = (k, v) ∨ p ∈ m := by
  induction m with
  | nil => simp [jset]
  | cons q t ih =>
    obtain ⟨k₀, v₀⟩ := q
    by_cases h : k₀ = k
    · intro p hp
      simp only [jset, if_pos h, List.mem_cons] at hp
      rcases hp with h1 | h1
      · exact Or.inl h1
      · exact Or.inr (List.mem_cons_of_mem _ h1)
    · intro p hp
      simp only [jset, if_neg h, List.mem_cons] at hp
      rcases hp with h1 | h1
      · exact Or.inr (by simp [h1])
      · rcases ih p h1 with h2 | h2
        · exact Or.inl h2
        · exact Or.inr (List.mem_cons_of_mem _ h2)

theorem jget_mem {α : Type} (m : JMap α) (k : Int) (v : α) (h : jget m k = some v) :
    (k, v) ∈ m := by
  induction m with
  | nil => simp [jget] at h
  | cons p t ih =>
    obtain ⟨k₀, v₀⟩ := p
    by_cases h0 : k₀ = k
    · subst h0
      simp [jget] at h
      subst h
      exact List.mem_cons_self _ _
    · simp only [jget, if_neg h0] at h
      exact List.mem_cons_of_mem _ (ih h)

theorem jhas_jset {α : Type} (m : JMap α) (k k' : Int) (v : α) (h : jhas m k' = true) :
    jhas (jset m k v) k' = true := by
  by_cases hk : k = k'
  · subst hk
    simp [jhas, jget_jset_self]
  · simpa [jhas, jget_jset_ne m k k' v hk] using h

theorem jget_jdel_ne {α : Type} (m : JMap α) (k k' : Int) (h : k' ≠ k) :
    jget (jdel m k) k' = jget m k' := by
  induction m with
  | nil => simp [jget, jdel]
  | cons p t ih =>
    obtain ⟨k₀, v₀⟩ := p
    by_cases h0 : k₀ = k
    · subst h0
      have hd : jdel ((k₀, v₀) :: t) k₀ = jdel t k₀ := by simp [jdel]
      rw [hd, ih]
      simp only [jget, if_neg (show ¬k₀ = k' from fun hh => h hh.symm)]
    · have hd : jdel ((k₀, v₀) :: t) k = (k₀, v₀) :: jdel t k := by simp [jdel, h0]
      rw [hd]
      by_cases h1 : k₀ = k'
      · simp [jget, h1]
      · simp [jget, h1, ih]

theorem filter_ne_of_not_mem (l : List Int) (id : Int) (h : id ∉ l) :
    l.filter (fun c => c ≠ id) = l := by
  apply List.filter_eq_self.mpr
  intro a ha
  simp only [decide_eq_true_eq]
  intro heq
  exact h (heq ▸ ha)

theorem jsRound_mono {a b : ℚ} (h : a ≤ b) : jsRound a ≤ jsRound b := by
  exact Int.floor_le_floor (by linarith)

theorem roundQ_mono {a b : ℚ} (d : ℕ) (h : a ≤ b) : roundQ a d ≤ roundQ b d := by
  unfold roundQ
  have hpow : (0 : ℚ) < 10 ^ d := by positivity
  have : jsRound (a * 10 ^ d) ≤ jsRound (b * 10 ^ d) := by
    apply jsRound_mono
    exact mul_le_mul_of_nonneg_right h (le_of_lt hpow)
  exact div_le_div_of_nonneg_right (by exact_mod_cast this) hpow.le

theorem roundQ_zero (d : ℕ) : roundQ 0 d = 0 := by
  unfold roundQ jsRound
  norm_num

theorem roundQ_intCast (n : ℤ) (d : ℕ) : roundQ (n : ℚ) d = n := by
  unfold roundQ jsRound
  have h1 : ((n : ℚ) * 10 ^ d + 1 / 2) = ((n * 10 ^ d : ℤ) : ℚ) + 1 / 2 := by
    push_cast
    ring
  rw [h1]
  have h3 : ⌊(1 : ℚ) / 2⌋ = 0 := by
    rw [Int.floor_eq_zero_iff]
    norm_num [Set.mem_Ico]
  have h2 : ⌊((n * 10 ^ d : ℤ) : ℚ) + 1 / 2⌋ = n * 10 ^ d := by
    rw [add_comm, Int.floor_add_int, h3, zero_add]
  rw [h2]
  have hpow : ((10 : ℚ) ^ d) ≠ 0 := by positivity
  push_cast
  field_simp

theorem addWarningOnce_idem (w : List String) (s : String) :
    addWarningOnce (addWarningOnce w s) s = addWarningOnce w s := by
  unfold addWarningOnce
  by_cases hl : s.length > 0
  · by_cases hm : s ∈ w <;> simp [hl, hm]
  · simp [hl]

theorem removeLoop_le (ops : List Int) :
    ∀ (count : ℕ) (nodes : JMap RenderNode) (i : ℕ), i ≤ (removeLoop ops nodes i count).2 := by
  intro count
  induction count with
  | zero => intro nodes i; simp [removeLoop]
  | succ n ih =>
    intro nodes i
    by_cases h : i < ops.length
    · simp only [removeLoop, if_pos h]
      exact le_trans (Nat.le_succ i) (ih _ _)
    · simp [removeLoop, if_neg h]

theorem collectIds_le (ops : List Int) :
    ∀ (count : ℕ) (i : ℕ), i ≤ (collectIds ops i count).2 := by
  intro count
  induction count with
  | zero => intro i; simp [collectIds]
  | succ n ih =>
    intro i
    by_cases h : i < ops.length
    · simp only [collectIds, if_pos h]
      exact le_trans (Nat.le_succ i) (ih _)
    · simp [collectIds, if_neg h]

theorem suspendersLoop_le (ops : List Int) :
    ∀ (count : ℕ) (i : ℕ), i ≤ suspendersLoop ops i count := by
  intro count
  induction count with
  | zero => intro i; simp [suspendersLoop]
  | succ n ih =>
    intro i
    by_cases h : i < ops.length
    · simp only [suspendersLoop, if_pos h]
      exact le_trans (by omega) (ih _)
    · simp [suspendersLoop, if_neg h]

theorem decodeStep_next_gt (ops : List Int) (table : List (Option String)) (tree : CommitTree)
    (warnings : List String) (i : ℕ) (h : i < ops.length) :
    i < (decodeStep ops table tree warnings i).next := by
  unfold decodeStep
  by_cases c1 : ops.getD i 0 = TREE_OPERATION_ADD
  · simp only [if_pos c1]
    cases getNum ops (i + 1) with
    | none => show i < i + 3; omega
    | some id =>
      by_cases hr : getNum ops (i + 2) = some ELEMENT_TYPE_ROOT
      · simp only [if_pos hr]; show i < i + 7; omega
      · simp only [if_neg hr]; show i < i + 8; omega
  simp only [if_neg c1]
  by_cases c2 : ops.getD i 0 = TREE_OPERATION_REMOVE
  · simp only [if_pos c2]
    cases getNum ops (i + 1) with
    | none => show i < i + 2; omega
    | some removeLength =>
      by_cases hneg : removeLength < 0
      · simp only [if_pos hneg]; show i < i + 2; omega
      · simp only [if_neg hneg]
        exact Nat.lt_of_lt_of_le (by omega) (removeLoop_le ops _ _ _)
  simp only [if_neg c2]
  by_cases c3 : ops.getD i 0 = TREE_OPERATION_REORDER_CHILDREN
  · simp only [if_pos c3]
    cases getNum ops (i + 2) with
    | none => show i < i + 3; omega
    | some numChildren =>
      by_cases hneg : numChildren < 0
      · simp only [if_pos hneg]; show i < i + 3; omega
      · simp only [if_neg hneg]
        exact Nat.lt_of_lt_of_le (by omega) (collectIds_le ops _ _)
  simp only [if_neg c3]
  by_cases c4 : ops.getD i 0 = TREE_OPERATION_SET_SUBTREE_MODE
  · simp only [if_pos c4]; show i < i + 3; omega
  simp only [if_neg c4]
  by_cases c5 : ops.getD i 0 = TREE_OPERATION_UPDATE_TREE_BASE_DURATION
  · simp only [if_pos c5]; show i < i + 3; omega
  simp only [if_neg c5]
  by_cases c6 : ops.getD i 0 = TREE_OPERATION_UPDATE_ERRORS_OR_WARNINGS
  · simp only [if_pos c6]; show i < i + 4; omega
  simp only [if_neg c6]
  by_cases c7 : ops.getD i 0 = SUSPENSE_TREE_OPERATION_ADD
  · simp only [if_pos c7]
    cases getNum ops (i + 5) with
    | none => exact h
    | some numRects => exact Nat.lt_of_lt_of_le (by omega) (Nat.le_add_right _ _)
  simp only [if_neg c7]
  by_cases c8 : ops.getD i 0 = SUSPENSE_TREE_OPERATION_REMOVE
  · simp only [if_pos c8]
    exact Nat.lt_of_lt_of_le (by omega) (Nat.le_add_right _ _)
  simp only [if_neg c8]
  by_cases c9 : ops.getD i 0 = SUSPENSE_TREE_OPERATION_REORDER_CHILDREN
  · simp only [if_pos c9]
    exact Nat.lt_of_lt_of_le (by omega) (Nat.le_add_right _ _)
  simp only [if_neg c9]
  by_cases c10 : ops.getD i 0 = SUSPENSE_TREE_OPERATION_RESIZE
  · simp only [if_pos c10]
    cases getNum ops (i + 2) with
    | none => exact h
    | some numRects => exact Nat.lt_of_lt_of_le (by omega) (Nat.le_add_right _ _)
  simp only [if_neg c10]
  by_cases c11 : ops.getD i 0 = SUSPENSE_TREE_OPERATION_SUSPENDERS
  · simp only [if_pos c11]
    exact Nat.lt_of_lt_of_le (by omega) (suspendersLoop_le ops _ _)
  simp only [if_neg c11]
  by_cases c12 : ops.getD i 0 = TREE_OPERATION_APPLIED_ACTIVITY_SLICE_CHANGE
  · simp only [if_pos c12]; show i < i + 2; omega
  simp only [if_neg c12]
  show i < i + 1
  omega

/-- Joint invariant of the memoised subtree computation: when every self time
is non-negative and every memoised value dominates the self time of its fiber,
a `computeSubtreeOne` result dominates the fiber's self time, a
`computeSubtreeKids` total is non-negative, and both preserve the memo
invariant. -/
theorem computeSubtree_inv (cb : JMap (List Int)) (selfOf : Int → ℚ)
    (hself : ∀ k, 0 ≤ selfOf k) :
    ∀ fuel : ℕ,
      (∀ (fid : Int) (lineage : List Int) (memo : JMap ℚ),
        (∀ p ∈ memo, selfOf p.1 ≤ p.2) →
        selfOf fid ≤ (computeSubtreeOne cb selfOf fuel fid lineage memo).1 ∧
        (∀ p ∈ (computeSubtreeOne cb selfOf fuel fid lineage memo).2, selfOf p.1 ≤ p.2)) ∧
      (∀ (l : List Int) (lineage : List Int) (memo : JMap ℚ),
        (∀ p ∈ memo, selfOf p.1 ≤ p.2) →
        0 ≤ (computeSubtreeKids cb selfOf fuel l lineage memo).1 ∧
        (∀ p ∈ (computeSubtreeKids cb selfOf fuel l lineage memo).2, selfOf p.1 ≤ p.2)) := by
  intro fuel
  induction fuel with
  | zero =>
    have hOne : ∀ (fid : Int) (lineage : List Int) (memo : JMap ℚ),
        (∀ p ∈ memo, selfOf p.1 ≤ p.2) →
        selfOf fid ≤ (computeSubtreeOne cb selfOf 0 fid lineage memo).1 ∧
        (∀ p ∈ (computeSubtreeOne cb selfOf 0 fid lineage memo).2, selfOf p.1 ≤ p.2) := by
      intro fid lineage memo hmemo
      unfold computeSubtreeOne
      refine ⟨?_, hmemo⟩
      cases hg : jget memo fid with
      | none => simp [hg]
      | some v => simpa [hg] using hmemo _ (jget_mem _ _ _ hg)
    refine ⟨hOne, ?_⟩
    intro l
    induction l with
    | nil =>
      intro lineage memo hmemo
      unfold computeSubtreeKids
      exact ⟨le_refl 0, hmemo⟩
    | cons c r ihr =>
      intro lineage memo hmemo
      have h1 := hOne c lineage memo hmemo
      have h2 := ihr lineage (computeSubtreeOne cb selfOf 0 c lineage memo).2 h1.2
      unfold computeSubtreeKids
      refine ⟨?_, h2.2⟩
      show (0 : ℚ) ≤ (computeSubtreeOne cb selfOf 0 c lineage memo).1 +
        (computeSubtreeKids cb selfOf 0 r lineage
          (computeSubtreeOne cb selfOf 0 c lineage memo).2).1
      have h3 := hself c
      linarith [h1.1, h2.1]
  | succ n ih =>
    have hOne : ∀ (fid : Int) (lineage : List Int) (memo : JMap ℚ),
        (∀ p ∈ memo, selfOf p.1 ≤ p.2) →
        selfOf fid ≤ (computeSubtreeOne cb selfOf (n + 1) fid lineage memo).1 ∧
        (∀ p ∈ (computeSubtreeOne cb selfOf (n + 1) fid lineage memo).2, selfOf p.1 ≤ p.2) := by
      intro fid lineage memo hmemo
      unfold computeSubtreeOne
      cases hg : jget memo fid with
      | some v =>
        exact ⟨by simpa using hmemo _ (jget_mem _ _ _ hg), by simpa using hmemo⟩
      | none =>
        by_cases hl : fid ∈ lineage
        · simp only [if_pos hl]
          exact ⟨le_refl _, hmemo⟩
        · simp only [if_neg hl]
          have hkids := ih.2 ((jget cb fid).getD []) (fid :: lineage) memo hmemo
          refine ⟨?_, ?_⟩
          · show selfOf fid ≤ selfOf fid +
              (computeSubtreeKids cb selfOf n ((jget cb fid).getD []) (fid :: lineage) memo).1
            linarith [hkids.1]
          · intro p hp
            have hp' := mem_jset
              (computeSubtreeKids cb selfOf n ((jget cb fid).getD []) (fid :: lineage) memo).2
              fid
              (selfOf fid +
                (computeSubtreeKids cb selfOf n ((jget cb fid).getD []) (fid :: lineage) memo).1)
              p hp
            rcases hp' with hp1 | hp1
            · subst hp1
              show selfOf fid ≤ selfOf fid +
                (computeSubtreeKids cb selfOf n ((jget cb fid).getD []) (fid :: lineage) memo).1
              linarith [hkids.1]
            · exact hkids.2 p hp1
    refine ⟨hOne, ?_⟩
    intro l
    induction l with
    | nil =>
      intro lineage memo hmemo
      unfold computeSubtreeKids
      exact ⟨le_refl 0, hmemo⟩
    | cons c r ihr =>
      intro lineage memo hmemo
      have h1 := hOne c lineage memo hmemo
      have h2 := ihr lineage (computeSubtreeOne cb selfOf (n + 1) c lineage memo).2 h1.2
      unfold computeSubtreeKids
      refine ⟨?_, h2.2⟩
      show (0 : ℚ) ≤ (computeSubtreeOne cb selfOf (n + 1) c lineage memo).1 +
        (computeSubtreeKids cb selfOf (n + 1) r lineage
          (computeSubtreeOne cb selfOf (n + 1) c lineage memo).2).1
      have h3 := hself c
      linarith [h1.1, h2.1]

/-- Both memoised computations only ever add memo entries (keys are never
removed). -/
theorem computeSubtree_has (cb : JMap (List Int)) (selfOf : Int → ℚ) :
    ∀ fuel : ℕ,
      (∀ (fid : Int) (lineage : List Int) (memo : JMap ℚ) (k : Int),
        jhas memo k = true → jhas (computeSubtreeOne cb selfOf fuel fid lineage memo).2 k = true) ∧
      (∀ (l : List Int) (lineage : List Int) (memo : JMap ℚ) (k : Int),
        jhas memo k = true → jhas (computeSubtreeKids cb selfOf fuel l lineage memo).2 k = true) := by
  intro fuel
  induction fuel with
  | zero =>
    have hOne : ∀ (fid : Int) (lineage : List Int) (memo : JMap ℚ) (k : Int),
        jhas memo k = true → jhas (computeSubtreeOne cb selfOf 0 fid lineage memo).2 k = true := by
      intro fid lineage memo k hk
      simpa [computeSubtreeOne] using hk
    refine ⟨hOne, ?_⟩
    intro l
    induction l with
    | nil => intro lineage memo k hk; simpa [computeSubtreeKids] using hk
    | cons c r ihr =>
      intro lineage memo k hk
      unfold computeSubtreeKids
      exact ihr lineage _ k (hOne c lineage memo k hk)
  | succ n ih =>
    have hOne : ∀ (fid : Int) (lineage : List Int) (memo : JMap ℚ) (k : Int),
        jhas memo k = true →
        jhas (computeSubtreeOne cb selfOf (n + 1) fid lineage memo).2 k = true := by
      intro fid lineage memo k hk
      unfold computeSubtreeOne
      cases hg : jget memo fid with
      | some v => simpa using hk
      | none =>
        by_cases hl : fid ∈ lineage
        · simpa [if_pos hl] using hk
        · simp only [if_neg hl]
          exact jhas_jset _ _ _ _ (ih.2 _ _ _ k hk)
    refine ⟨hOne, ?_⟩
    intro l
    induction l with
    | nil => intro lineage memo k hk; simpa [computeSubtreeKids] using hk
    | cons c r ihr =>
      intro lineage memo k hk
      unfold computeSubtreeKids
      exact ihr lineage _ k (hOne c lineage memo k hk)

/-- With positive fuel and an empty lineage, one `computeSubtreeMs` call leaves
its own fiber memoised. -/
theorem computeSubtreeOne_has_self (cb : JMap (List Int)) (selfOf : Int → ℚ)
    (n : ℕ) (fid : Int) (memo : JMap ℚ) :
    jhas (computeSubtreeOne cb selfOf (n + 1) fid [] memo).2 fid = true := by
  unfold computeSubtreeOne
  cases hg : jget memo fid with
  | some v => simp [jhas, hg]
  | none =>
    simp only [List.not_mem_nil, if_neg]
    simp [jhas, jget_jset_self]

/-- After the `fgMemo` fold, every fiber of the iterated list is memoised. -/
theorem fgMemo_has (cb : JMap (List Int)) (selfOf : Int → ℚ) (N : ℕ) :
    ∀ (l : List Int) (memo : JMap ℚ) (fid : Int),
      (fid ∈ l ∨ jhas memo fid = true) →
      jhas (l.foldl (fun m f => (computeSubtreeOne cb selfOf (N + 1) f [] m).2) memo) fid
        = true := by
  intro l
  induction l with
  | nil =>
    intro memo fid hf
    rcases hf with hf | hf
    · cases hf
    · simpa using hf
  | cons c r ihr =>
    intro memo fid hf
    simp only [List.foldl_cons]
    by_cases hfc : fid = c
    · subst hfc
      exact ihr _ fid (Or.inr (computeSubtreeOne_has_self cb selfOf N fid memo))
    · rcases hf with hf | hf
      · rcases List.mem_cons.mp hf with hf1 | hf1
        · exact absurd hf1 hfc
        · exact ihr _ fid (Or.inl hf1)
      · exact ihr _ fid (Or.inr ((computeSubtree_has cb selfOf (N + 1)).1 c [] memo fid hf))

/-- The memo invariant holds of the final `fgMemo` fold. -/
theorem fgMemo_inv (cb : JMap (List Int)) (selfOf : Int → ℚ)
    (hself : ∀ k, 0 ≤ selfOf k) (N : ℕ) :
    ∀ (l : List Int) (memo : JMap ℚ),
      (∀ p ∈ memo, selfOf p.1 ≤ p.2) →
      ∀ p ∈ l.foldl (fun m f => (computeSubtreeOne cb selfOf N f [] m).2) memo,
        selfOf p.1 ≤ p.2 := by
  intro l
  induction l with
  | nil => intro memo hmemo; simpa using hmemo
  | cons c r ihr =>
    intro memo hmemo
    simp only [List.foldl_cons]
    exact ihr _ (((computeSubtree_inv cb selfOf hself N).1 c [] memo hmemo).2)

/-- Detaching an id that is not among the given parent's children leaves that
parent's children list unchanged. -/
theorem detach_parent_children (nodes : JMap RenderNode) (id p : Int) (pn : RenderNode)
    (hpn : jget nodes p = some pn) (hnc : id ∉ pn.children) :
    ∃ pn1 : RenderNode, jget (detachFromOldParent nodes id) p = some pn1 ∧
      pn1.children = pn.children := by
  unfold detachFromOldParent
  cases hex : jget nodes id with
  | none =>
    dsimp only
    exact ⟨pn, hpn, rfl⟩
  | some ex =>
    dsimp only
    cases hq : jget nodes ex.parentID with
    | none =>
      dsimp only
      exact ⟨pn, hpn, rfl⟩
    | some oldP =>
      dsimp only
      by_cases hqp : ex.parentID = p
      · subst hqp
        rw [hpn] at hq
        injection hq with hq
        subst hq
        refine ⟨_, jget_jset_self _ _ _, ?_⟩
        exact filter_ne_of_not_mem _ _ hnc
      · exact ⟨pn, by rw [jget_jset_ne _ _ _ _ hqp]; exact hpn, rfl⟩

/-- Attaching an id that is not yet among the parent's children appends it. -/
theorem attach_parent_children (nodes1 : JMap RenderNode) (id p : Int) (pn1 : RenderNode)
    (h1 : jget nodes1 p = some pn1) (hnc : id ∉ pn1.children) :
    attachToParent nodes1 id (some p) =
      jset nodes1 p { pn1 with children := pn1.children ++ [id] } := by
  unfold attachToParent
  dsimp only
  rw [h1]
  simp [hnc]

/-! ## Claim theorems -/

/-- C1 (corrected): the reported `subtreeMs` of an included node is the
explicit actual-duration entry or 0 when absent, so `subtreeMs ≥ selfMs` fails
for nodes with a self entry but no subtree entry (see the counterexample);
the invariant that does hold is that the recomputed `computedSubtreeMs`
dominates `selfMs` whenever all per-fiber self durations are non-negative. -/
theorem c1_computed_subtree_dominates_self (tree : CommitTree) (rootName : String)
    (fallbackFiberNameMap : JMap String) (renderedFibers : List Int)
    (actualByFiber selfByFiber : JMap ℚ)
    (hself : ∀ p ∈ selfByFiber, 0 ≤ p.2) :
    ∀ n ∈ (buildCommitFlamegraph tree rootName fallbackFiberNameMap renderedFibers
        actualByFiber selfByFiber).nodes,
      n.selfMs ≤ n.computedSubtreeMs := by
  have hselfOf : ∀ k, 0 ≤ fgSelfOf selfByFiber k := by
    intro k
    unfold fgSelfOf
    cases hg : jget selfByFiber k with
    | none => simp
    | some v => simpa using hself _ (jget_mem _ _ _ hg)
  intro n hn
  simp only [buildCommitFlamegraph] at hn
  have hn2 := (List.perm_insertionSort fgNodeOrder _).mem_iff.mp hn
  obtain ⟨fid, hfid, rfl⟩ := List.mem_map.mp hn2
  show roundQ (fgSelfOf selfByFiber fid) 2 ≤
    roundQ ((jget (fgMemoOf tree renderedFibers selfByFiber) fid).getD 0) 2
  apply roundQ_mono
  have hhas : jhas (fgMemoOf tree renderedFibers selfByFiber) fid = true := by
    unfold fgMemoOf fgMemo
    exact fgMemo_has (fgChildrenBy tree renderedFibers) (fgSelfOf selfByFiber)
      (fgIncluded tree renderedFibers).length (fgIncluded tree renderedFibers) [] fid
      (Or.inl hfid)
  unfold jhas at hhas
  obtain ⟨v, hv⟩ := Option.isSome_iff_exists.mp hhas
  rw [hv, Option.getD_some]
  have hv' := hv
  unfold fgMemoOf fgMemo at hv'
  exact fgMemo_inv (fgChildrenBy tree renderedFibers) (fgSelfOf selfByFiber) hselfOf
    ((fgIncluded tree renderedFibers).length + 1) (fgIncluded tree renderedFibers) []
    (by simp) (fid, v) (jget_mem _ _ _ hv')

/-- C1 counterexample: in the fixture pass, fiber 2 carries a self entry of
5 ms but no actual-duration entry, so its reported `subtreeMs` is 0, strictly
below its `selfMs` of 5 — refuting `subtreeMs ≥ selfMs` for nodes with a self
entry but no explicit subtree entry. -/
theorem c1_cex : ∃ n ∈ fgFix.nodes, n.subtreeMs < n.selfMs := by
  have h2in : (2 : Int) ∈ fgIncluded fixTree [2, 3] := by decide
  refine ⟨fgBuildNode fixTree "root" [] [2, 3] [] fixSelf 2, ?_, ?_⟩
  · simp only [fgFix, buildCommitFlamegraph]
    exact (List.perm_insertionSort fgNodeOrder _).mem_iff.mpr (List.mem_map_of_mem _ h2in)
  · show roundQ ((jget ([] : JMap ℚ) 2).getD 0) 2 < roundQ (fgSelfOf fixSelf 2) 2
    have hs : fgSelfOf fixSelf 2 = ((5 : ℤ) : ℚ) := by norm_num [fgSelfOf, fixSelf, jget]
    rw [hs, roundQ_intCast]
    simp only [jget, Option.getD_none, roundQ_zero]
    norm_num

/-- C1 witness: the dominance theorem applied to the fixture pass. -/
theorem c1_witness :
    (∀ p ∈ fixSelf, (0 : ℚ) ≤ p.2) ∧
    ∀ n ∈ fgFix.nodes, n.selfMs ≤ n.computedSubtreeMs :=
  ⟨by decide,
    c1_computed_subtree_dominates_self fixTree "root" [] [2, 3] [] fixSelf (by decide)⟩

/-- C2 (corrected): the comparator checks the improved branch first with
`cadenceImproved = ¬(churn before ∧ churn after)`, so the verdict is
`"improved"` iff the primary metric decreased and churn is not present on
both sides — even when churn newly appeared (see the counterexample, where
the claim instead demands `"regressed"`); `"regressed"` requires the improved
condition to fail and the primary metric to increase or churn to newly
appear; every other case — equal primary totals with identical cadence in
particular — yields `"mixed"`. -/
theorem c2_verdict_characterization (before after : ReportSummary) :
    (compareVerdict before after = "improved" ↔
      (afterPrimary before after < beforePrimary before after ∧
        ¬(before.likelyIntervalChurn = true ∧ after.likelyIntervalChurn = true))) ∧
    (compareVerdict before after = "regressed" ↔
      (¬(afterPrimary before after < beforePrimary before after ∧
          ¬(before.likelyIntervalChurn = true ∧ after.likelyIntervalChurn = true)) ∧
        (beforePrimary before after < afterPrimary before after ∨
          (before.likelyIntervalChurn = false ∧ after.likelyIntervalChurn = true)))) ∧
    (compareVerdict before after = "mixed" ↔
      (¬(afterPrimary before after < beforePrimary before after ∧
          ¬(before.likelyIntervalChurn = true ∧ after.likelyIntervalChurn = true)) ∧
        ¬(beforePrimary before after < afterPrimary before after ∨
          (before.likelyIntervalChurn = false ∧ after.likelyIntervalChurn = true)))) ∧
    (before.reactTimeMs = after.reactTimeMs →
      before.componentTrackEvents = after.componentTrackEvents →
      before.likelyIntervalChurn = after.likelyIntervalChurn →
      compareVerdict before after = "mixed") := by
  have hprim : before.reactTimeMs = after.reactTimeMs →
      before.componentTrackEvents = after.componentTrackEvents →
      beforePrimary before after = afterPrimary before after := by
    intro h1 h2
    unfold beforePrimary afterPrimary
    rw [h1, h2]
  have hmix : before.reactTimeMs = after.reactTimeMs →
      before.componentTrackEvents = after.componentTrackEvents →
      before.likelyIntervalChurn = after.likelyIntervalChurn →
      compareVerdict before after = "mixed" := by
    intro h1 h2 h3
    unfold compareVerdict
    rw [hprim h1 h2, h3]
    cases hac : after.likelyIntervalChurn <;> simp [lt_irrefl]
  have hall : (compareVerdict before after = "improved" ↔
      (afterPrimary before after < beforePrimary before after ∧
        ¬(before.likelyIntervalChurn = true ∧ after.likelyIntervalChurn = true))) ∧
      (compareVerdict before after = "regressed" ↔
        (¬(afterPrimary before after < beforePrimary before after ∧
            ¬(before.likelyIntervalChurn = true ∧ after.likelyIntervalChurn = true)) ∧
          (beforePrimary before after < afterPrimary before after ∨
            (before.likelyIntervalChurn = false ∧ after.likelyIntervalChurn = true)))) ∧
      (compareVerdict before after = "mixed" ↔
        (¬(afterPrimary before after < beforePrimary before after ∧
            ¬(before.likelyIntervalChurn = true ∧ after.likelyIntervalChurn = true)) ∧
          ¬(beforePrimary before after < afterPrimary before after ∨
            (before.likelyIntervalChurn = false ∧ after.likelyIntervalChurn = true)))) := by
    unfold compareVerdict
    by_cases hi : afterPrimary before after < beforePrimary before after
    · have hr : ¬beforePrimary before after < afterPrimary before after := lt_asymm hi
      cases hb : before.likelyIntervalChurn <;> cases ha : after.likelyIntervalChurn <;>
        simp [hi, hr]
    · by_cases hr : beforePrimary before after < afterPrimary before after
      · cases hb : before.likelyIntervalChurn <;> cases ha : after.likelyIntervalChurn <;>
          simp [hi, hr]
      · cases hb : before.likelyIntervalChurn <;> cases ha : after.likelyIntervalChurn <;>
          simp [hi, hr]
  exact ⟨hall.1, hall.2.1, hall.2.2, hmix⟩

/-- C2 counterexample: primary metric decreased (100 → 40 ms) while periodic
churn newly appeared; the claim requires verdict `"regressed"` (churn newly
appeared), but the code returns `"improved"` because the improved branch is
tested first with `cadenceImproved = ¬(churn before ∧ churn after)`. -/
theorem c2_cex :
    rsBefore.likelyIntervalChurn = false ∧ rsAfter.likelyIntervalChurn = true ∧
    afterPrimary rsBefore rsAfter < beforePrimary rsBefore rsAfter ∧
    compareVerdict rsBefore rsAfter = "improved" :=
  ⟨rfl, rfl, by decide, by decide⟩

/-- C2 witness: the characterisation applied to a report compared with
itself, giving the `"mixed"` verdict for equal totals and identical
cadence. -/
theorem c2_witness : compareVerdict rsEqual rsEqual = "mixed" :=
  (c2_verdict_characterization rsEqual rsEqual).2.2.2 rfl rfl rfl

/-- C3 (corrected): per included node the reported `subtreeMs` is the explicit
per-fiber actual duration when present and 0 otherwise — the recomputed value
is not substituted for it, but exposed alongside as `computedSubtreeMs`; the
recomputation itself is `selfMs + Σ child results` over the included children,
with the recursion lineage guard returning just the node's self time on a
revisit. -/
theorem c3_subtree_explicit_or_zero :
    (∀ (tree : CommitTree) (rootName : String) (fallbackFiberNameMap : JMap String)
        (renderedFibers : List Int) (actualByFiber selfByFiber : JMap ℚ),
      ∀ n ∈ (buildCommitFlamegraph tree rootName fallbackFiberNameMap renderedFibers
          actualByFiber selfByFiber).nodes,
        n.subtreeMs = roundQ ((jget actualByFiber n.fiberId).getD 0) 2 ∧
        n.computedSubtreeMs =
          roundQ ((jget (fgMemoOf tree renderedFibers selfByFiber) n.fiberId).getD 0) 2) ∧
    (∀ (cb : JMap (List Int)) (selfOf : Int → ℚ) (fuel : ℕ) (fid : Int)
        (lineage : List Int) (memo : JMap ℚ),
      jget memo fid = none → fid ∈ lineage →
      (computeSubtreeOne cb selfOf (fuel + 1) fid lineage memo).1 = selfOf fid) ∧
    (∀ (cb : JMap (List Int)) (selfOf : Int → ℚ) (fuel : ℕ) (fid : Int)
        (lineage : List Int) (memo : JMap ℚ),
      jget memo fid = none → fid ∉ lineage →
      (computeSubtreeOne cb selfOf (fuel + 1) fid lineage memo).1 =
        selfOf fid + (computeSubtreeKids cb selfOf fuel ((jget cb fid).getD [])
          (fid :: lineage) memo).1) := by
  refine ⟨?_, ?_, ?_⟩
  · intro tree rootName fallbackFiberNameMap renderedFibers actualByFiber selfByFiber n hn
    simp only [buildCommitFlamegraph] at hn
    have hn2 := (List.perm_insertionSort fgNodeOrder _).mem_iff.mp hn
    obtain ⟨fid, hfid, rfl⟩ := List.mem_map.mp hn2
    exact ⟨rfl, rfl⟩
  · intro cb selfOf fuel fid lineage memo hm hl
    unfold computeSubtreeOne
    simp only [hm]
    simp [hl]
  · intro cb selfOf fuel fid lineage memo hm hl
    unfold computeSubtreeOne
    simp only [hm]
    simp [hl]

/-- C3 counterexample: leaf fiber 3 of the fixture pass has self time 3 ms,
no explicit actual-duration entry, and no included children, so the claim's
recomputation yields 3 — but the reported `subtreeMs` is 0, not the
recomputed value. -/
theorem c3_cex :
    ∃ n ∈ fgFix.nodes, n.fiberId = 3 ∧ jget ([] : JMap ℚ) n.fiberId = none ∧
      n.childrenFiberIds = [] ∧ n.selfMs = 3 ∧ n.subtreeMs = 0 := by
  have h3in : (3 : Int) ∈ fgIncluded fixTree [2, 3] := by decide
  refine ⟨fgBuildNode fixTree "root" [] [2, 3] [] fixSelf 3, ?_, rfl, rfl, ?_, ?_, ?_⟩
  · simp only [fgFix, buildCommitFlamegraph]
    exact (List.perm_insertionSort fgNodeOrder _).mem_iff.mpr (List.mem_map_of_mem _ h3in)
  · show (jget (fgChildrenBy fixTree [2, 3]) 3).getD [] = []
    decide
  · show roundQ (fgSelfOf fixSelf 3) 2 = 3
    have hs : fgSelfOf fixSelf 3 = ((3 : ℤ) : ℚ) := by norm_num [fgSelfOf, fixSelf, jget]
    rw [hs, roundQ_intCast]
    norm_num
  · show roundQ ((jget ([] : JMap ℚ) 3).getD 0) 2 = 0
    simp only [jget, Option.getD_none, roundQ_zero]

/-- C3 witness: the cycle-guard clause applied to a fiber already on the
recursion lineage. -/
theorem c3_witness :
    jget ([] : JMap ℚ) 7 = none ∧ (7 : Int) ∈ [(7 : Int)] ∧
    (computeSubtreeOne [] (fun _ => (2 : ℚ)) 1 7 [7] []).1 = (fun _ => (2 : ℚ)) 7 :=
  ⟨rfl, by decide,
    c3_subtree_explicit_or_zero.2.1 [] (fun _ => (2 : ℚ)) 0 7 [7] [] rfl (by decide)⟩

/-- C4 (confirmed): the cadence detector sorts the timestamps, takes the
consecutive deltas and their median, computes regularity as the fraction of
deltas within `max(40, 0.2 × median)` of the median, and classifies
`likelyIntervalChurn` exactly when at least 3 deltas exist, the median lies in
`[700, 1300]` and the regularity is at least one half; on ten timestamps
spaced exactly 1000 ms apart it reports median 1000, regularity 1 and a
positive churn classification. -/
theorem c4_cadence_characterization :
    (∀ ts : List ℚ,
      ((summarizeCadence ts).likelyIntervalChurn = true ↔
        (3 ≤ (cadenceDeltas ts).length ∧ 700 ≤ cadenceMedian ts ∧
          cadenceMedian ts ≤ 1300 ∧ 1 / 2 ≤ cadenceRegularity ts))) ∧
    summarizeCadence cadenceDemo =
      { samples := 10, medianDeltaMs := some 1000, regularity := some 1,
        likelyIntervalChurn := true } := by
  have hdl : ∀ ts : List ℚ, (cadenceDeltas ts).length = ts.length - 1 := by
    intro ts
    unfold cadenceDeltas consecutiveDeltas
    rw [List.length_map, List.length_zip, List.length_tail, List.length_insertionSort]
    omega
  constructor
  · intro ts
    unfold summarizeCadence
    by_cases hlen : ts.length < 4
    · simp only [if_pos hlen]
      constructor
      · intro hfalse
        exact absurd hfalse (by simp)
      · rintro ⟨h3, -⟩
        exfalso
        have := hdl ts
        omega
    · simp only [if_neg hlen]
      show decide _ = true ↔ _
      rw [decide_eq_true_eq]
      unfold cadenceMedian
      constructor
      · rintro ⟨hne, h7, h13, hreg, hd⟩
        exact ⟨hd, h7, h13, hreg⟩
      · rintro ⟨hd, h7, h13, hreg⟩
        refine ⟨?_, h7, h13, hreg, hd⟩
        intro h0
        rw [h0] at h7
        norm_num at h7
  · have hsorted : List.Sorted (· ≤ ·) cadenceDemo := by decide
    have hs : cadenceDemo.insertionSort (· ≤ ·) = cadenceDemo :=
      List.Sorted.insertionSort_eq hsorted
    have hdeltas : cadenceDeltas cadenceDemo =
        [1000, 1000, 1000, 1000, 1000, 1000, 1000, 1000, 1000] := by
      unfold cadenceDeltas consecutiveDeltas
      rw [hs]
      norm_num [cadenceDemo]
    have hmedsorted :
        List.insertionSort (· ≤ ·)
          [(1000 : ℚ), 1000, 1000, 1000, 1000, 1000, 1000, 1000, 1000] =
          [1000, 1000, 1000, 1000, 1000, 1000, 1000, 1000, 1000] :=
      List.Sorted.insertionSort_eq (by decide)
    have hmed : median [(1000 : ℚ), 1000, 1000, 1000, 1000, 1000, 1000, 1000, 1000] =
        some 1000 := by
      unfold median
      rw [hmedsorted]
      norm_num [List.getD]
    have hreg : cadenceRegularity cadenceDemo = 1 := by
      unfold cadenceRegularity cadenceMedian
      rw [hdeltas, hmed]
      norm_num [max_def]
    have hround1000 : roundQ 1000 2 = 1000 := by
      have := roundQ_intCast 1000 2
      norm_num at this
      exact this
    have hround1 : roundQ 1 3 = 1 := by
      have := roundQ_intCast 1 3
      norm_num at this
      exact this
    unfold summarizeCadence
    rw [if_neg (by norm_num [cadenceDemo])]
    dsimp only
    rw [hdeltas, hmed]
    simp only [Option.getD_some, hreg, hround1000, hround1, CadenceSummary.mk.injEq]
    refine ⟨by norm_num [cadenceDemo], trivial, trivial, ?_⟩
    rw [decide_eq_true_eq]
    norm_num

/-- C4 witness: the characterisation applied to the ten equally spaced
timestamps. -/
theorem c4_witness :
    (summarizeCadence cadenceDemo).likelyIntervalChurn = true ↔
      (3 ≤ (cadenceDeltas cadenceDemo).length ∧ 700 ≤ cadenceMedian cadenceDemo ∧
        cadenceMedian cadenceDemo ≤ 1300 ∧ 1 / 2 ≤ cadenceRegularity cadenceDemo) :=
  c4_cadence_characterization.1 cadenceDemo

/-- C5 (corrected): `summarizeChangeDescription` does not short-circuit on a
first mount; it accumulates `"mount"` together with any of `"props"`,
`"state"`, `"context"`, `"hooks"` whose changed-set is non-empty (hooks also
fire on the `didHooksChange` flag), joins them with `"+"`, and returns
`"unknown"` only when no category applies. -/
theorem c5_reason_summary_accumulates (cd : ChangeDescription) :
    summarizeChangeDescription cd =
      (if reasonCategories cd = [] then "unknown"
       else String.intercalate "+" (reasonCategories cd)) := by
  unfold summarizeChangeDescription reasonCategories
  cases hm : cd.isFirstMount <;> cases hp : isNonemptyArr cd.props <;>
    cases hs : isNonemptyArr cd.state <;> cases hc : isNonemptyArr cd.context <;>
      cases hh : isNonemptyArr cd.hooks <;> cases hd : cd.didHooksChange <;>
        simp_all

/-- C5 counterexample: a first-mount record with a non-empty changed-props set
is summarised as `"mount+props"`, not `"mount"`, contradicting the claim that
`isFirstMount` always yields `"mount"` regardless of the changed-sets. -/
theorem c5_cex :
    cdMountProps.isFirstMount = true ∧
    summarizeChangeDescription cdMountProps = "mount+props" ∧
    summarizeChangeDescription cdMountProps ≠ "mount" := by
  decide

/-- C5 witness: the accumulation theorem applied to the fixture record. -/
theorem c5_witness :
    summarizeChangeDescription cdMountProps =
      (if reasonCategories cdMountProps = [] then "unknown"
       else String.intercalate "+" (reasonCategories cdMountProps)) :=
  c5_reason_summary_accumulates cdMountProps

/-- C6 (corrected): replaying a non-root `AddNode(id, parent)` immediately
followed by `RemoveNodes([id])` restores the parent's children list to its
pre-add value whenever `id` was not already among that parent's children
before the add (and `id` differs from the parent).  When `id` was already a
child, the remove deletes the node outright, so the list is not restored (see
the counterexample). -/
theorem c6_add_remove_restores_children (nodes : JMap RenderNode)
    (table : List (Option String)) (id parentID : Int)
    (type? displayNameStringID? keyStringID? : Option Int) (pn : RenderNode)
    (hpn : jget nodes parentID = some pn) (hnc : id ∉ pn.children) (hne : id ≠ parentID) :
    (jget (removeOne
        (applyAddNonRoot nodes table id type? (some parentID) displayNameStringID? keyStringID?)
        id) parentID).map (fun n => n.children) = some pn.children := by
  obtain ⟨pn1, hpn1, hch⟩ := detach_parent_children nodes id parentID pn hpn hnc
  have hnc1 : id ∉ pn1.children := hch ▸ hnc
  unfold applyAddNonRoot
  rw [attach_parent_children _ _ _ _ hpn1 hnc1]
  unfold removeOne
  rw [jget_jset_self]
  dsimp only
  rw [Option.getD_some]
  rw [jget_jset_ne _ _ _ _ hne, jget_jset_self]
  dsimp only
  rw [jget_jdel_ne _ _ _ (Ne.symm hne), jget_jset_self]
  simp only [Option.map_some, Option.some.injEq, List.filter_append,
    filter_ne_of_not_mem _ _ hnc1, hch]
  simp
  intro a ha heq
  exact hnc (heq ▸ ha)

/-- C6 counterexample: with node 7 already a child of parent 10, replaying
`AddNode(7, 10)` then `RemoveNodes([7])` leaves parent 10 with an empty
children list instead of restoring the pre-add list `[7]`. -/
theorem c6_cex :
    (jget c6Nodes 10).map (fun n => n.children) = some [7] ∧
    (jget (removeOne (applyAddNonRoot c6Nodes [none] 7 (some 5) (some 10) none none) 7)
        10).map (fun n => n.children) = some [] ∧
    ([7] : List Int) ≠ [] := by
  decide

/-- C6 witness: the restoration theorem applied to a parent with no prior
child 7. -/
theorem c6_witness :
    jget c6NodesW 10 = some { rnParent10 with children := [] } ∧
    (7 : Int) ∉ ({ rnParent10 with children := [] } : RenderNode).children ∧
    (7 : Int) ≠ 10 ∧
    (jget (removeOne (applyAddNonRoot c6NodesW [none] 7 (some 5) (some 10) none none) 7)
        10).map (fun n => n.children) =
      some ({ rnParent10 with children := [] } : RenderNode).children :=
  ⟨by decide, by decide, by decide,
    c6_add_remove_restores_children c6NodesW [none] 7 10 (some 5) none none
      { rnParent10 with children := [] } (by decide) (by decide) (by decide)⟩

/-- C7 (corrected): for a commit record lacking the explicit
duration/actualDuration/commitDuration fields, the reported duration falls
back to the positive self-duration total, else to the positive sum of the
numeric top-level entries of the raw `fiberActualDurations` array — not the
value-wise per-fiber sum the claim describes — else zero. -/
theorem c7_duration_fallback_chain (c : CommitRecord)
    (hnone : pickCommitDuration c = none) :
    reportedCommitDurationMs c =
      (if 0 < fiberSelfTotal c.fiberSelfDurations then
        roundQ (fiberSelfTotal c.fiberSelfDurations) 2
      else if 0 < sumNumericArray c.fiberActualDurations then
        roundQ (sumNumericArray c.fiberActualDurations) 2
      else 0) := by
  unfold reportedCommitDurationMs resolveCommitDurationMs
  rw [hnone]
  by_cases h1 : 0 < fiberSelfTotal c.fiberSelfDurations
  · simp [h1]
  · by_cases h2 : 0 < sumNumericArray c.fiberActualDurations
    · simp [h1, h2]
    · simp [h1, h2, roundQ_zero]

/-- C7 counterexample: a pass with no explicit duration, no self durations,
and the single nested actual-duration pair `[1, 5]` reports duration 0, while
the claim's "sum of the per-fiber subtree/actual-durations" is 5 (the code
sums only numeric top-level entries of the raw array, which for nested pair
encodings is zero and for flat encodings includes the fiber ids). -/
theorem c7_cex :
    pickCommitDuration c7Commit = none ∧
    fiberSelfTotal c7Commit.fiberSelfDurations = 0 ∧
    specActualDurationsSum c7Commit.fiberActualDurations = 5 ∧
    reportedCommitDurationMs c7Commit = 0 := by
  refine ⟨rfl, rfl, ?_, ?_⟩
  · norm_num [c7Commit, specActualDurationsSum, normalizePairEntries]
  · unfold reportedCommitDurationMs resolveCommitDurationMs
    norm_num [c7Commit, pickCommitDuration, fiberSelfTotal, normalizePairEntries,
      sumNumericArray, roundQ_zero]

/-- C7 witness: the fallback chain applied to a record whose flat
`fiberSelfDurations` array `[2, 4]` yields the positive self total 4. -/
theorem c7_witness :
    pickCommitDuration c7CommitW = none ∧
    reportedCommitDurationMs c7CommitW =
      (if 0 < fiberSelfTotal c7CommitW.fiberSelfDurations then
        roundQ (fiberSelfTotal c7CommitW.fiberSelfDurations) 2
      else if 0 < sumNumericArray c7CommitW.fiberActualDurations then
        roundQ (sumNumericArray c7CommitW.fiberActualDurations) 2
      else 0) :=
  ⟨by decide, c7_duration_fallback_chain c7CommitW (by decide)⟩

/-- C8 (confirmed): on an unknown operation code the decoder leaves the tree
untouched, records exactly one diagnostic for that code in the de-duplicated
warning set (adding the same diagnostic again is a no-op), advances the
cursor by exactly one unit, and the decode loop continues with the remainder
of the record instead of raising a fault. -/
theorem c8_unknown_opcode_recovery (ops : List Int) (table : List (Option String))
    (tree : CommitTree) (warnings : List String) (fuel i : ℕ)
    (hin : i < ops.length) (hunk : ops.getD i 0 ∉ knownOpcodes) :
    (decodeStep ops table tree warnings i).tree = tree ∧
    (decodeStep ops table tree warnings i).warnings =
      addWarningOnce warnings (unknownOpcodeWarning (ops.getD i 0)) ∧
    (decodeStep ops table tree warnings i).next = i + 1 ∧
    addWarningOnce (addWarningOnce warnings (unknownOpcodeWarning (ops.getD i 0)))
        (unknownOpcodeWarning (ops.getD i 0)) =
      addWarningOnce warnings (unknownOpcodeWarning (ops.getD i 0)) ∧
    decodeLoop ops table (fuel + 1) tree warnings i =
      decodeLoop ops table fuel tree
        (addWarningOnce warnings (unknownOpcodeWarning (ops.getD i 0))) (i + 1) := by
  simp only [knownOpcodes, List.mem_cons, List.not_mem_nil, or_false] at hunk
  push_neg at hunk
  obtain ⟨h1, h2, h3, h4, h5, h7, h8, h9, h10, h11, h12, h13⟩ := hunk
  have hstep : decodeStep ops table tree warnings i =
      { tree := tree
        warnings := addWarningOnce warnings (unknownOpcodeWarning (ops.getD i 0))
        next := i + 1 } := by
    unfold decodeStep
    simp only [TREE_OPERATION_ADD, TREE_OPERATION_REMOVE, TREE_OPERATION_REORDER_CHILDREN,
      TREE_OPERATION_UPDATE_TREE_BASE_DURATION, TREE_OPERATION_UPDATE_ERRORS_OR_WARNINGS,
      TREE_OPERATION_SET_SUBTREE_MODE, SUSPENSE_TREE_OPERATION_ADD,
      SUSPENSE_TREE_OPERATION_REMOVE, SUSPENSE_TREE_OPERATION_REORDER_CHILDREN,
      SUSPENSE_TREE_OPERATION_RESIZE, SUSPENSE_TREE_OPERATION_SUSPENDERS,
      TREE_OPERATION_APPLIED_ACTIVITY_SLICE_CHANGE, h1, h2, h3, h4, h5, h7, h8, h9, h10,
      h11, h12, h13, if_false]
  refine ⟨by rw [hstep], by rw [hstep], by rw [hstep], addWarningOnce_idem _ _, ?_⟩
  conv_lhs => rw [decodeLoop]
  rw [if_pos hin, hstep]

/-- C8 witness: the recovery theorem applied to the record `[1, 1, 0, 99, 99]`
at cursor 3, whose opcode 99 is unknown. -/
theorem c8_witness :
    (3 < opsUnknown.length ∧ opsUnknown.getD 3 0 ∉ knownOpcodes) ∧
    (decodeStep opsUnknown [none] { rootID := 0, nodes := [] } [] 3).tree =
        { rootID := 0, nodes := [] } ∧
    (decodeStep opsUnknown [none] { rootID := 0, nodes := [] } [] 3).warnings =
      addWarningOnce [] (unknownOpcodeWarning (opsUnknown.getD 3 0)) ∧
    (decodeStep opsUnknown [none] { rootID := 0, nodes := [] } [] 3).next = 3 + 1 ∧
    addWarningOnce (addWarningOnce [] (unknownOpcodeWarning (opsUnknown.getD 3 0)))
        (unknownOpcodeWarning (opsUnknown.getD 3 0)) =
      addWarningOnce [] (unknownOpcodeWarning (opsUnknown.getD 3 0)) ∧
    decodeLoop opsUnknown [none] (1 + 1) { rootID := 0, nodes := [] } [] 3 =
      decodeLoop opsUnknown [none] 1 { rootID := 0, nodes := [] }
        (addWarningOnce [] (unknownOpcodeWarning (opsUnknown.getD 3 0))) (3 + 1) :=
  ⟨⟨by decide, by decide⟩,
    c8_unknown_opcode_recovery opsUnknown [none] { rootID := 0, nodes := [] } [] 1 3
      (by decide) (by decide)⟩

/-- C9 (confirmed): every iteration of the main decode loop advances the
cursor strictly, in every opcode branch — including the skipped
suspense/error variants and the unknown-opcode default (the two suspense
branches that produce a NaN cursor on a truncated payload are modelled as
jumping to the end of the record, which also strictly advances).  Together
with the `ops.length + 1` fuel of `applyOperationsToCommitTree`, this makes
the replay of one render pass's record terminate on every finite integer
array. -/
theorem c9_decode_cursor_strictly_increases (ops : List Int)
    (table : List (Option String)) (tree : CommitTree) (warnings : List String)
    (i : ℕ) (h : i < ops.length) :
    i < (decodeStep ops table tree warnings i).next :=
  decodeStep_next_gt ops table tree warnings i h

/-- C9 witness: the cursor-progress theorem applied at the first opcode of the
fixture record. -/
theorem c9_witness :
    3 < opsUnknown.length ∧
    3 < (decodeStep opsUnknown [none] { rootID := 0, nodes := [] } [] 3).next :=
  ⟨by decide,
    c9_decode_cursor_strictly_increases opsUnknown [none] { rootID := 0, nodes := [] } [] 3
      (by decide)⟩

/-- C10 (confirmed): the report's hotspots array is the aggregate list sorted
by `totalMs` descending with `count` as tie-breaker and truncated to the top
25: it never exceeds 25 entries, is sorted under that order, and every entry
comes from an aggregate (entries beyond the 25th are absent). -/
theorem c10_hotspots_top25 (aggregates : List Aggregate) :
    (buildHotspots aggregates).length ≤ 25 ∧
    List.Sorted hotspotOrder (buildHotspots aggregates) ∧
    ∀ h ∈ buildHotspots aggregates, ∃ a ∈ aggregates, h = toHotspot a := by
  refine ⟨?_, ?_, ?_⟩
  · unfold buildHotspots
    exact List.length_take_le 25 _
  · unfold buildHotspots
    exact List.Pairwise.sublist (List.take_sublist _ _)
      (List.sorted_insertionSort hotspotOrder _)
  · intro h hh
    unfold buildHotspots at hh
    have hh1 : h ∈ (aggregates.map toHotspot).insertionSort hotspotOrder :=
      List.mem_of_mem_take hh
    have hh2 : h ∈ aggregates.map toHotspot :=
      (List.perm_insertionSort hotspotOrder _).mem_iff.mp hh1
    obtain ⟨a, ha, rfl⟩ := List.mem_map.mp hh2
    exact ⟨a, ha, rfl⟩

/-- C10 witness: the truncation theorem applied to the empty aggregate list. -/
theorem c10_witness :
    (buildHotspots []).length ≤ 25 ∧
    List.Sorted hotspotOrder (buildHotspots []) ∧
    ∀ h ∈ buildHotspots [], ∃ a ∈ ([] : List Aggregate), h = toHotspot a :=
  c10_hotspots_top25 []

end RPO
